import Mathlib

/-! nakedret: the naked-return detector.

A shallow embedding of `nakedret.go` (package `main`): the visitor
`returnsVisitor.Visit`, the driver `checkNakedReturns` and the argument
handling of `parseInput`, together with the parts of the Go standard library
they call (`go/token` position lookup, `go/ast` nodes and `ast.Walk`).

Conventions.
* Go `int` and `uint` are 64 bits wide.  An `int` is an `Int`, a `uint` is a
  `Nat`; the two places of `Visit` where the width matters (the subtraction
  of two line numbers and the conversion `uint(functionLineLength)`) are
  written with an explicit reduction modulo `2 ^ 64`.
* A Go pointer that the program compares with `nil` is an `Option`.
* A run-time panic (nil dereference, `panic("illegal Pos value")`) is the
  result `none` of a function returning `Option`.
* What `log.Printf` writes is returned as a list, one entry per call.
-/

namespace Nakedret

/-! ## go/token -/

namespace token

/-- The type `token.Pos`, a Go `int`. -/
abbrev Pos := Int

/-- The constant `token.NoPos`. -/
def NoPos : Pos := 0

/-- The record `lineInfo` that a `//line` directive leaves in a file: from
`Offset` on, positions are reported in `Filename`, counted from `Line`. -/
structure lineInfo where
  Offset : Int
  Filename : String
  Line : Int
deriving DecidableEq, Repr

/-- The type `token.File`: name, base and size as given to `AddFile`, the
offsets of the first character of each line, and the `//line` records. -/
structure File where
  name : String
  base : Int
  size : Int
  lines : List Int
  infos : List lineInfo
deriving DecidableEq, Repr

/-- The type `token.Position`, without the column, which the program never
reads. -/
structure Position where
  Filename : String
  Offset : Int
  Line : Int
deriving DecidableEq, Repr

/-- The method `(*File).Name`. -/
def File.Name (f : File) : String := f.name

/-- The function `searchInts(a, x)`: `sort.Search(len(a), a[i] > x) - 1`.  On
the sorted tables a `File` holds this is the index of the first entry above
`x`, minus one; that index is found here by a linear scan. -/
def searchInts (a : List Int) (x : Int) : Int :=
  (a.findIdx (fun y => decide (y > x)) : Int) - 1

/-- The function `searchLineInfos(a, x)`: as `searchInts`, on the `Offset` of
the records. -/
def searchLineInfos (a : List lineInfo) (x : Int) : Int :=
  (a.findIdx (fun i => decide (i.Offset > x)) : Int) - 1

/-- The method `(*File).unpack`: file name and line of an offset, adjusted by
the `//line` records when `adjusted` is set. -/
def File.unpack (f : File) (offset : Int) (adjusted : Bool) : String × Int :=
  let i := searchInts f.lines offset
  let line : Int := if i ≥ 0 then i + 1 else 0
  if adjusted && decide (f.infos.length > 0) then
    let k := searchLineInfos f.infos offset
    if k ≥ 0 then
      match f.infos.get? k.toNat with
      | some alt =>
        let j := searchInts f.lines alt.Offset
        if j ≥ 0 then (alt.Filename, alt.Line + (line - (j + 1)))
        else (alt.Filename, line)
      | none => (f.name, line)
    else (f.name, line)
  else (f.name, line)

/-- The method `(*File).position`. -/
def File.position (f : File) (p : Pos) (adjusted : Bool) : Position :=
  let offset := p - f.base
  let r := f.unpack offset adjusted
  { Filename := r.1, Offset := offset, Line := r.2 }

/-- The method `(*File).PositionFor` on a receiver that may be nil.  For
`NoPos` the zero `Position` is returned without touching the receiver; for
any other `p` a nil receiver is dereferenced and a `p` outside
`[base, base+size]` is `panic("illegal Pos value")`.  (Releases of Go that
clamp such a `p` instead give the same result for every `p` in the range.) -/
def File.PositionFor (f : Option File) (p : Pos) (adjusted : Bool) : Option Position :=
  if p ≠ NoPos then
    match f with
    | none => none
    | some f =>
      if p < f.base ∨ p > f.base + f.size then none
      else some (f.position p adjusted)
  else some { Filename := "", Offset := 0, Line := 0 }

/-- The method `(*File).Position`: `PositionFor(p, true)`. -/
def File.Position (f : Option File) (p : Pos) : Option Position :=
  File.PositionFor f p true

/-- The type `token.FileSet`: its files, in the order of their bases. -/
structure FileSet where
  files : List File
deriving DecidableEq, Repr

/-- The function `token.NewFileSet`. -/
def NewFileSet : FileSet := { files := [] }

/-- The function `searchFiles(a, x)`: `sort.Search(len(a), a[i].base > x) - 1`,
the scan done linearly as in `searchInts`. -/
def searchFiles (a : List File) (x : Int) : Int :=
  (a.findIdx (fun f => decide (f.base > x)) : Int) - 1

/-- The method `(*FileSet).file`: the file whose range holds `p`, or nil.  (The
one-entry cache `s.last` only short-cuts the search.) -/
def FileSet.file (s : FileSet) (p : Pos) : Option File :=
  let i := searchFiles s.files p
  if i ≥ 0 then
    match s.files.get? i.toNat with
    | some f => if p ≤ f.base + f.size then some f else none
    | none => none
  else none

/-- The method `(*FileSet).File`. -/
def FileSet.File (s : FileSet) (p : Pos) : Option File :=
  if p ≠ NoPos then s.file p else none

end token

/-! ## go/ast

The node kinds below are the part of `go/ast` the development works with.
Fields the program and `ast.Walk` never look at (documentation, most
positions) are left out; the type of a result or parameter is a type name.
A pointer inside a tree is non-nil unless its field is an `Option`.  The Go
field `Type` is written `Type_`. -/

namespace ast

/-- The type `ast.Ident`. -/
structure Ident where
  NamePos : token.Pos
  Name : String
deriving Repr

/-- The type `ast.Field`.  `Names` is a `[]*ast.Ident`, whose entries the
program compares with nil. -/
structure Field where
  Names : List (Option Ident)
  Type_ : Ident
deriving Repr

/-- The type `ast.FieldList`. -/
structure FieldList where
  List : List Field
deriving Repr

/-- The type `ast.FuncType`. -/
structure FuncType where
  Params : Option FieldList
  Results : Option FieldList
deriving Repr

mutual
/-- Expressions: `*ast.Ident`, `*ast.BasicLit`, `*ast.FuncLit` (its `Body` is
the statement list of the block) and `*ast.CallExpr`. -/
inductive Expr where
  | Ident (x : ast.Ident)
  | BasicLit (ValuePos : token.Pos) (Value : String)
  | FuncLit (Type_ : FuncType) (Body : List Stmt)
  | CallExpr (Fun : Expr) (Args : List Expr)
/-- Statements: `*ast.ExprStmt`, `*ast.AssignStmt`, `*ast.ReturnStmt`,
`*ast.BlockStmt`, `*ast.IfStmt` and `*ast.ForStmt`.  A `Body` is the statement
list of the block. -/
inductive Stmt where
  | ExprStmt (X : Expr)
  | AssignStmt (Lhs : List Expr) (Rhs : List Expr)
  | ReturnStmt (Return : token.Pos) (Results : List Expr)
  | BlockStmt (List : List Stmt)
  | IfStmt (Cond : Expr) (Body : List Stmt) (Else : Option Stmt)
  | ForStmt (Cond : Option Expr) (Body : List Stmt)
end

/-- The type `ast.BlockStmt`, as the body of a declaration. -/
structure BlockStmt where
  List : List Stmt

/-- The type `ast.FuncDecl`.  `Pos` and `End` are the values of the methods
`funcDecl.Pos()` and `funcDecl.End()`. -/
structure FuncDecl where
  Recv : Option FieldList
  Name : Option Ident
  Type_ : Option FuncType
  Body : Option BlockStmt
  Pos : token.Pos
  End : token.Pos

/-- The type `ast.ValueSpec`. -/
structure ValueSpec where
  Names : List (Option Ident)
  Type_ : Option Ident
  Values : List Expr

/-- The type `ast.GenDecl`, with value specifications. -/
structure GenDecl where
  Specs : List ValueSpec

/-- Declarations: `*ast.GenDecl` and `*ast.FuncDecl`. -/
inductive Decl where
  | GenDecl (d : ast.GenDecl)
  | FuncDecl (d : ast.FuncDecl)

/-- The type `ast.File`. -/
structure File where
  Name : Option Ident
  Decls : List Decl

/-- The type `ast.Package`: its files, in the order in which a `range` over
the map `Files` yields them. -/
structure Package where
  Files : List File

/-- A value of the interface `ast.Node`, as `Visit` receives it: the nil
interface, or a pointer to a node of one of the kinds above.  An `*ast.Ident`
that stands in a name list or as a type is `Node.Ident`, and may be a nil
pointer. -/
inductive Node where
  | nil
  | File (f : ast.File)
  | GenDecl (d : ast.GenDecl)
  | FuncDecl (d : ast.FuncDecl)
  | ValueSpec (s : ast.ValueSpec)
  | FuncType (t : ast.FuncType)
  | FieldList (l : ast.FieldList)
  | Field (f : ast.Field)
  | Ident (x : Option ast.Ident)
  | Expr (e : ast.Expr)
  | Stmt (s : ast.Stmt)

end ast

/-! ## The visitor -/

/-- The struct `returnsVisitor`: the file set and the threshold (a `uint`). -/
structure returnsVisitor where
  f : token.FileSet
  maxLength : Nat
deriving DecidableEq, Repr

/-- The four arguments of the `log.Printf` call of `Visit`, in order:
`file.Name()`, `file.Position(s.Pos()).Line`, `funcDecl.Name.Name` and
`functionLineLength`. -/
structure Diagnostic where
  file : String
  line : Int
  name : String
  span : Int
deriving DecidableEq, Repr

/-- The line `log.Printf` writes for a finding, with the format
`"%v:%v %v naked returns on %v line function \n"` (the logger has no prefix
and no flags, and adds no newline to a text that ends in one). -/
def Diagnostic.text (d : Diagnostic) : String :=
  d.file ++ ":" ++ toString d.line ++ " " ++ d.name ++ " naked returns on "
    ++ toString d.span ++ " line function \n"

/-- A Go `int` result: the value reduced to the range `[-2^63, 2^63)`. -/
def wrapInt (x : Int) : Int := (x + 2 ^ 63) % 2 ^ 64 - 2 ^ 63

/-- The conversion `uint(x)` of a Go `int`. -/
def toUint (x : Int) : Nat := (x % 2 ^ 64).toNat

/-- The loops of lines 152-158: the non-nil identifiers of all fields of the
result list, in order. -/
def namedReturns (results : ast.FieldList) : List ast.Ident :=
  results.List.flatMap (fun field => field.Names.filterMap id)

/-- Lines 159-160: `file := v.f.File(funcDecl.Pos())` and the difference of
the lines of `funcDecl.End()` and `funcDecl.Pos()` in that file; `none` when
one of the two `file.Position` calls panics. -/
def functionLineLength (v : returnsVisitor) (funcDecl : ast.FuncDecl) : Option Int :=
  let file := v.f.File funcDecl.Pos
  match token.File.Position file funcDecl.End, token.File.Position file funcDecl.Pos with
  | some e, some s => some (wrapInt (e.Line - s.Line))
  | _, _ => none

/-- The body of the loop of lines 165-181 for one statement of the body. -/
def scanStmt (v : returnsVisitor) (funcDecl : ast.FuncDecl) (functionLineLength : Int)
    (stmt : ast.Stmt) : Option (List Diagnostic) :=
  match stmt with
  | .ReturnStmt Return Results =>
    if Results.length = 0 then
      match v.f.File Return with
      | some file =>
        if toUint functionLineLength > v.maxLength then
          match funcDecl.Name with
          | some name =>
            match token.File.Position (some file) Return with
            | some p => some [{ file := file.Name, line := p.Line, name := name.Name,
                                span := functionLineLength }]
            | none => none
          | none => some []
        else some []
      | none => some []
    else some []
  | _ => some []

/-- The loop of lines 165-181 over `funcDecl.Body.List`. -/
def scanBody (v : returnsVisitor) (funcDecl : ast.FuncDecl) (functionLineLength : Int) :
    List ast.Stmt → Option (List Diagnostic)
  | [] => some []
  | stmt :: rest =>
    match scanStmt v funcDecl functionLineLength stmt with
    | none => none
    | some out =>
      match scanBody v funcDecl functionLineLength rest with
      | none => none
      | some outs => some (out ++ outs)

/-- Lines 149-161: the named returns and the line length of a declaration
(both zero values unless `Type` and `Type.Results` are non-nil). -/
def resultInfo (v : returnsVisitor) (funcDecl : ast.FuncDecl) :
    Option (List ast.Ident × Int) :=
  match funcDecl.Type_ with
  | some type =>
    match type.Results with
    | some results =>
      match functionLineLength v funcDecl with
      | some n => some (namedReturns results, n)
      | none => none
    | none => some ([], 0)
  | none => some ([], 0)

/-- The method `(*returnsVisitor).Visit`: what it logs and the visitor it
returns, or `none` when it panics. -/
def returnsVisitor.Visit (v : returnsVisitor) (node : ast.Node) :
    Option (List Diagnostic × returnsVisitor) :=
  match node with
  | .FuncDecl funcDecl =>
    match resultInfo v funcDecl with
    | none => none
    | some (namedReturns, functionLineLength) =>
      if namedReturns.length > 0 then
        match funcDecl.Body with
        | some body =>
          match scanBody v funcDecl functionLineLength body.List with
          | some out => some (out, v)
          | none => none
        | none => some ([], v)
      else some ([], v)
  | _ => some ([], v)

/-! ## ast.Walk -/

/-- Two steps in sequence: the second runs unless the first panicked. -/
def andThen (a b : Option (List Diagnostic)) : Option (List Diagnostic) :=
  match a with
  | none => none
  | some x =>
    match b with
    | none => none
    | some y => some (x ++ y)

/-- The frame of `ast.Walk(v, node)`: `v = v.Visit(node)`, the walk of the
children with the visitor returned, and `v.Visit(nil)`.  (`Visit` never returns
a nil visitor, so the walk is never cut short.) -/
def walkNode (v : returnsVisitor) (node : ast.Node)
    (children : returnsVisitor → Option (List Diagnostic)) : Option (List Diagnostic) :=
  match v.Visit node with
  | none => none
  | some (out, w) =>
    andThen (some out) (andThen (children w) ((w.Visit ast.Node.nil).map Prod.fst))

/-- The case `*ast.Ident` of `ast.Walk`, for a pointer that may be nil. -/
def walkIdent (v : returnsVisitor) (x : Option ast.Ident) : Option (List Diagnostic) :=
  walkNode v (.Ident x) (fun _ => some [])

/-- The function `walkIdentList`. -/
def walkIdentList (v : returnsVisitor) : List (Option ast.Ident) → Option (List Diagnostic)
  | [] => some []
  | x :: xs => andThen (walkIdent v x) (walkIdentList v xs)

/-- The case `*ast.Field` of `ast.Walk`. -/
def walkField (v : returnsVisitor) (f : ast.Field) : Option (List Diagnostic) :=
  walkNode v (.Field f) (fun w => andThen (walkIdentList w f.Names) (walkIdent w (some f.Type_)))

/-- The loop of the case `*ast.FieldList`. -/
def walkFields (v : returnsVisitor) : List ast.Field → Option (List Diagnostic)
  | [] => some []
  | f :: fs => andThen (walkField v f) (walkFields v fs)

/-- The case `*ast.FieldList` of `ast.Walk`, under a test `!= nil`. -/
def walkFieldList (v : returnsVisitor) : Option ast.FieldList → Option (List Diagnostic)
  | none => some []
  | some l => walkNode v (.FieldList l) (fun w => walkFields w l.List)

/-- The case `*ast.FuncType` of `ast.Walk`. -/
def walkFuncType (v : returnsVisitor) (t : ast.FuncType) : Option (List Diagnostic) :=
  walkNode v (.FuncType t) (fun w => andThen (walkFieldList w t.Params) (walkFieldList w t.Results))

mutual
/-- The expression cases of `ast.Walk`. -/
def walkExpr (v : returnsVisitor) : ast.Expr → Option (List Diagnostic)
  | .Ident x => walkNode v (.Expr (.Ident x)) (fun _ => some [])
  | .BasicLit p s => walkNode v (.Expr (.BasicLit p s)) (fun _ => some [])
  | .FuncLit t body =>
    walkNode v (.Expr (.FuncLit t body)) (fun w =>
      andThen (walkFuncType w t)
        (walkNode w (.Stmt (.BlockStmt body)) (fun u => walkStmtList u body)))
  | .CallExpr f args =>
    walkNode v (.Expr (.CallExpr f args)) (fun w =>
      andThen (walkExpr w f) (walkExprList w args))
/-- The function `walkExprList`. -/
def walkExprList (v : returnsVisitor) : List ast.Expr → Option (List Diagnostic)
  | [] => some []
  | e :: es => andThen (walkExpr v e) (walkExprList v es)
/-- A walk of an expression under a test `!= nil`. -/
def walkExprOpt (v : returnsVisitor) : Option ast.Expr → Option (List Diagnostic)
  | none => some []
  | some e => walkExpr v e
/-- The statement cases of `ast.Walk`. -/
def walkStmt (v : returnsVisitor) : ast.Stmt → Option (List Diagnostic)
  | .ExprStmt x => walkNode v (.Stmt (.ExprStmt x)) (fun w => walkExpr w x)
  | .AssignStmt lhs rhs =>
    walkNode v (.Stmt (.AssignStmt lhs rhs)) (fun w =>
      andThen (walkExprList w lhs) (walkExprList w rhs))
  | .ReturnStmt p results =>
    walkNode v (.Stmt (.ReturnStmt p results)) (fun w => walkExprList w results)
  | .BlockStmt list => walkNode v (.Stmt (.BlockStmt list)) (fun w => walkStmtList w list)
  | .IfStmt cond body els =>
    walkNode v (.Stmt (.IfStmt cond body els)) (fun w =>
      andThen (walkExpr w cond)
        (andThen (walkNode w (.Stmt (.BlockStmt body)) (fun u => walkStmtList u body))
          (walkStmtOpt w els)))
  | .ForStmt cond body =>
    walkNode v (.Stmt (.ForStmt cond body)) (fun w =>
      andThen (walkExprOpt w cond)
        (walkNode w (.Stmt (.BlockStmt body)) (fun u => walkStmtList u body)))
/-- The function `walkStmtList`. -/
def walkStmtList (v : returnsVisitor) : List ast.Stmt → Option (List Diagnostic)
  | [] => some []
  | s :: ss => andThen (walkStmt v s) (walkStmtList v ss)
/-- A walk of a statement under a test `!= nil`. -/
def walkStmtOpt (v : returnsVisitor) : Option ast.Stmt → Option (List Diagnostic)
  | none => some []
  | some s => walkStmt v s
end

/-- The case `*ast.ValueSpec` of `ast.Walk`. -/
def walkValueSpec (v : returnsVisitor) (s : ast.ValueSpec) : Option (List Diagnostic) :=
  walkNode v (.ValueSpec s) (fun w =>
    andThen (walkIdentList w s.Names)
      (andThen (match s.Type_ with
                | some t => walkIdent w (some t)
                | none => some [])
        (walkExprList w s.Values)))

/-- The loop of the case `*ast.GenDecl`. -/
def walkSpecs (v : returnsVisitor) : List ast.ValueSpec → Option (List Diagnostic)
  | [] => some []
  | s :: ss => andThen (walkValueSpec v s) (walkSpecs v ss)

/-- The cases `*ast.GenDecl` and `*ast.FuncDecl` of `ast.Walk`.  A declaration
whose `Type` is nil makes the walk of that child dereference a nil pointer. -/
def walkDecl (v : returnsVisitor) : ast.Decl → Option (List Diagnostic)
  | .GenDecl d => walkNode v (.GenDecl d) (fun w => walkSpecs w d.Specs)
  | .FuncDecl d =>
    walkNode v (.FuncDecl d) (fun w =>
      andThen (walkFieldList w d.Recv)
        (andThen (walkIdent w d.Name)
          (andThen (match d.Type_ with
                    | some t => walkFuncType w t
                    | none => none)
            (match d.Body with
             | some b => walkNode w (.Stmt (.BlockStmt b.List)) (fun u => walkStmtList u b.List)
             | none => some []))))

/-- The function `walkDeclList`. -/
def walkDeclList (v : returnsVisitor) : List ast.Decl → Option (List Diagnostic)
  | [] => some []
  | d :: ds => andThen (walkDecl v d) (walkDeclList v ds)

/-- The call `ast.Walk(v, f)` for a file `f`. -/
def ast.Walk (v : returnsVisitor) (f : ast.File) : Option (List Diagnostic) :=
  walkNode v (.File f) (fun w => andThen (walkIdent w f.Name) (walkDeclList w f.Decls))

/-- The loop of lines 65-67: `ast.Walk(retVis, f)` for each file in turn. -/
def walkFiles (retVis : returnsVisitor) : List ast.File → Option (List Diagnostic)
  | [] => some []
  | f :: files => andThen (ast.Walk retVis f) (walkFiles retVis files)

/-! ## The calls of a run

`retVis` is a pointer and `Visit` has a pointer receiver, so the struct behind
it is shared by all the calls of a run: a call meets the struct as the call
before it left it.  The functions `calls...` list the arguments of the calls
of `Visit` that `ast.Walk` makes, in order (no call returns a nil visitor, so
none is skipped); `visitAll` makes a list of calls one after the other. -/

/-- The calls in `calls`, in order, on one visitor: each call runs on the
visitor that the call before it returned.  The result is what was logged and
the visitor returned last, or `none` when a call panics. -/
def visitAll (v : returnsVisitor) : List ast.Node → Option (List Diagnostic × returnsVisitor)
  | [] => some ([], v)
  | node :: calls =>
    match v.Visit node with
    | none => none
    | some (out, w) =>
      match visitAll w calls with
      | none => none
      | some (outs, u) => some (out ++ outs, u)

/-- The calls of the walk of an `*ast.Ident`: the node, then nil. -/
def callsIdent (x : Option ast.Ident) : List ast.Node := [.Ident x, .nil]

/-- The calls of `walkIdentList`. -/
def callsIdentList (xs : List (Option ast.Ident)) : List ast.Node := xs.flatMap callsIdent

/-- The calls of the walk of an `*ast.Field`. -/
def callsField (f : ast.Field) : List ast.Node :=
  .Field f :: (callsIdentList f.Names ++ (callsIdent (some f.Type_) ++ [.nil]))

/-- The calls of the walk of an `*ast.FieldList`, under a test `!= nil`. -/
def callsFieldList : Option ast.FieldList → List ast.Node
  | none => []
  | some l => .FieldList l :: (l.List.flatMap callsField ++ [.nil])

/-- The calls of the walk of an `*ast.FuncType`. -/
def callsFuncType (t : ast.FuncType) : List ast.Node :=
  .FuncType t :: (callsFieldList t.Params ++ (callsFieldList t.Results ++ [.nil]))

mutual
/-- The calls of the walk of an expression. -/
def callsExpr : ast.Expr → List ast.Node
  | .Ident x => [.Expr (.Ident x), .nil]
  | .BasicLit p s => [.Expr (.BasicLit p s), .nil]
  | .FuncLit t body =>
    .Expr (.FuncLit t body) ::
      (callsFuncType t ++ (.Stmt (.BlockStmt body) :: (callsStmtList body ++ [.nil, .nil])))
  | .CallExpr f args =>
    .Expr (.CallExpr f args) :: (callsExpr f ++ (callsExprList args ++ [.nil]))
/-- The calls of `walkExprList`. -/
def callsExprList : List ast.Expr → List ast.Node
  | [] => []
  | e :: es => callsExpr e ++ callsExprList es
/-- The calls of the walk of an expression under a test `!= nil`. -/
def callsExprOpt : Option ast.Expr → List ast.Node
  | none => []
  | some e => callsExpr e
/-- The calls of the walk of a statement. -/
def callsStmt : ast.Stmt → List ast.Node
  | .ExprStmt x => .Stmt (.ExprStmt x) :: (callsExpr x ++ [.nil])
  | .AssignStmt lhs rhs =>
    .Stmt (.AssignStmt lhs rhs) :: (callsExprList lhs ++ (callsExprList rhs ++ [.nil]))
  | .ReturnStmt p results => .Stmt (.ReturnStmt p results) :: (callsExprList results ++ [.nil])
  | .BlockStmt list => .Stmt (.BlockStmt list) :: (callsStmtList list ++ [.nil])
  | .IfStmt cond body els =>
    .Stmt (.IfStmt cond body els) ::
      (callsExpr cond ++
        (.Stmt (.BlockStmt body) :: (callsStmtList body ++ (.nil :: (callsStmtOpt els ++ [.nil])))))
  | .ForStmt cond body =>
    .Stmt (.ForStmt cond body) ::
      (callsExprOpt cond ++ (.Stmt (.BlockStmt body) :: (callsStmtList body ++ [.nil, .nil])))
/-- The calls of `walkStmtList`. -/
def callsStmtList : List ast.Stmt → List ast.Node
  | [] => []
  | s :: ss => callsStmt s ++ callsStmtList ss
/-- The calls of the walk of a statement under a test `!= nil`. -/
def callsStmtOpt : Option ast.Stmt → List ast.Node
  | none => []
  | some s => callsStmt s
end

/-- The calls of the walk of an `*ast.ValueSpec`. -/
def callsValueSpec (s : ast.ValueSpec) : List ast.Node :=
  .ValueSpec s ::
    (callsIdentList s.Names ++
      ((match s.Type_ with
        | some t => callsIdent (some t)
        | none => []) ++ (callsExprList s.Values ++ [.nil])))

/-- The calls of the walk of a declaration.  (With a nil `Type` the walk of a
function declaration panics at that child; the calls are listed as far as the
child before it.) -/
def callsDecl : ast.Decl → List ast.Node
  | .GenDecl d => .GenDecl d :: (d.Specs.flatMap callsValueSpec ++ [.nil])
  | .FuncDecl d =>
    .FuncDecl d ::
      (callsFieldList d.Recv ++
        (callsIdent d.Name ++
          (match d.Type_ with
           | some t =>
             callsFuncType t ++
               ((match d.Body with
                 | some b => .Stmt (.BlockStmt b.List) :: (callsStmtList b.List ++ [.nil])
                 | none => []) ++ [.nil])
           | none => [])))

/-- The calls of `ast.Walk(v, f)` for a file `f`. -/
def callsFile (f : ast.File) : List ast.Node :=
  .File f :: (callsIdent f.Name ++ (f.Decls.flatMap callsDecl ++ [.nil]))

/-- The calls of the loop of lines 65-67 over `files`. -/
def callsFiles (files : List ast.File) : List ast.Node := files.flatMap callsFile

/-! ## The driver -/

namespace strings

/-- The function `strings.HasSuffix`. -/
def HasSuffix (s suffix : String) : Bool := suffix.data.isSuffixOf s.data

/-- The function `strings.TrimSuffix`. -/
def TrimSuffix (s suffix : String) : String :=
  if HasSuffix s suffix then ⟨s.data.take (s.data.length - suffix.data.length)⟩ else s

end strings

/-- The value of `os.Stat`, of which only `IsDir()` is read. -/
structure FileInfo where
  IsDir : Bool
deriving DecidableEq, Repr

/-- The operating system and the parser as `parseInput` meets them.
* `Stat` is `os.Stat`.
* `Walk root` lists the paths under `root` for which the callback given to
  `filepath.Walk` sees `f.IsDir()`, in the order of the walk; the callback
  always returns nil, so `filepath.Walk` returns nil too.
* `ParseFile` and `ParseDir` are `parser.ParseFile(fset, name, nil, 0)` and
  `parser.ParseDir(fset, path, nil, 0)`: the result and the file set with the
  files added to it.  `ParseDir` gives the packages in the order in which a
  `range` over the map yields them. -/
structure Host where
  Stat : String → Except String FileInfo
  Walk : String → List String
  ParseFile : token.FileSet → String → Except String ast.File × token.FileSet
  ParseDir : token.FileSet → String → Except String (List ast.Package) × token.FileSet

/-- The constant `path`. -/
def path : String := "./"

/-- The function `isDir`. -/
def isDir (os : Host) (filename : String) : Bool :=
  match os.Stat filename with
  | .ok fi => fi.IsDir
  | .error _ => false

/-- The variables of `parseInput`, with the file set it adds to. -/
structure parseState where
  directoryList : List String
  fileMode : Bool
  files : List ast.File
  fset : token.FileSet

/-- The loop of lines 80-114 of `parseInput` over the arguments. -/
def parseArgs (os : Host) : List String → parseState → Except String parseState
  | [], st => .ok st
  | arg :: rest, st =>
    if strings.HasSuffix arg "/..." then
      let trimmedArg := strings.TrimSuffix arg "/..."
      if isDir os trimmedArg then
        parseArgs os rest { st with directoryList := st.directoryList ++ os.Walk trimmedArg }
      else .error (arg ++ " is not a valid directory")
    else if isDir os arg then
      parseArgs os rest { st with directoryList := st.directoryList ++ [arg] }
    else if strings.HasSuffix arg ".go" then
      match os.ParseFile st.fset arg with
      | (.error err, _) => .error err
      | (.ok f, fset) =>
        parseArgs os rest { st with fileMode := true, files := st.files ++ [f], fset := fset }
    else .error ("invalid file " ++ arg ++ " specified")

/-- The loop of lines 120-131 of `parseInput` over the directories. -/
def parseDirs (os : Host) : List String → List ast.File → token.FileSet →
    Except String (List ast.File × token.FileSet)
  | [], files, fset => .ok (files, fset)
  | fpath :: rest, files, fset =>
    match os.ParseDir fset fpath with
    | (.error err, _) => .error err
    | (.ok pkgs, fset1) =>
      parseDirs os rest (files ++ pkgs.flatMap (fun pkg => pkg.Files)) fset1

/-- The function `parseInput`: the files parsed and the file set filled, or
the error. -/
def parseInput (os : Host) (args : List String) (fset : token.FileSet) :
    Except String (List ast.File × token.FileSet) :=
  let st0 : parseState := { directoryList := [], fileMode := false, files := [], fset := fset }
  let r :=
    if args.length = 0 then
      Except.ok { st0 with directoryList := st0.directoryList ++ [path] }
    else parseArgs os args st0
  match r with
  | .error err => .error err
  | .ok st =>
    if !st.fileMode then parseDirs os st.directoryList st.files st.fset
    else .ok (st.files, st.fset)

/-- The function `checkNakedReturns`: the error returned (`none` for nil) and
what was logged, or `none` when a walk panics.  `maxLength` is a `*uint`. -/
def checkNakedReturns (os : Host) (args : List String) (maxLength : Option Nat) :
    Option (Option String × List Diagnostic) :=
  let fset := token.NewFileSet
  match parseInput os args fset with
  | .error err => some (some ("could not parse input " ++ err), [])
  | .ok (files, fset) =>
    match maxLength with
    | none => some (some "max length nil", [])
    | some maxLength =>
      let retVis : returnsVisitor := { f := fset, maxLength := maxLength }
      match walkFiles retVis files with
      | some out => some (none, out)
      | none => none

/-! ## Vocabulary of the statements below -/

/-- The position of a statement that is a return statement with zero result
expressions. -/
def bareReturnPos : ast.Stmt → Option token.Pos
  | .ReturnStmt Return Results => if Results.length = 0 then some Return else none
  | _ => none

/-- The positions of the return statements with zero result expressions that
stand directly in a statement list, in statement order. -/
def bareReturns (list : List ast.Stmt) : List token.Pos :=
  list.filterMap bareReturnPos

/-- The direct bare returns of a declaration (none when the body is absent). -/
def directBareReturns (funcDecl : ast.FuncDecl) : List token.Pos :=
  match funcDecl.Body with
  | some body => bareReturns body.List
  | none => []

/-- What is logged for one bare return at `p` in a declaration of line length
`n`: lines 170-175. -/
def reportAt (v : returnsVisitor) (funcDecl : ast.FuncDecl) (n : Int) (p : token.Pos) :
    List Diagnostic :=
  match v.f.File p with
  | some file =>
    if toUint n > v.maxLength then
      match funcDecl.Name with
      | some name => [{ file := file.Name, line := (file.position p true).Line,
                        name := name.Name, span := n }]
      | none => []
    else []
  | none => []

/-- What a call of `Visit` logs; nothing when it panics. -/
def emitted (v : returnsVisitor) (node : ast.Node) : List Diagnostic :=
  match v.Visit node with
  | some (out, _) => out
  | none => []

/-- The positions of a node belong to one file of the file set: for a
declaration, the positions `Pos()` and `End()` lie in the same file. -/
def positioned (fs : token.FileSet) : ast.Node → Bool
  | .FuncDecl d =>
    match fs.File d.Pos with
    | some file => decide (fs.File d.End = some file)
    | none => false
  | _ => true

/-- The text `"F:L N naked returns on S line function"`, as the specification
words the rendering of a finding. -/
def specText (F : String) (L : Int) (N : String) (S : Int) : String :=
  F ++ ":" ++ toString L ++ " " ++ N ++ " naked returns on " ++ toString S ++ " line function"

/-! ## Sample inputs

The file `a.go`, registered at base 1 (the number of each line is given on
the right):

    package p                        1
                                     2
    func f() (err error) {           3
            g()                      4
                                     5 to 8, empty
            return                   9
    }                               10
                                    11
    func g() (n int) {              12
            n = 1                   13
            return                  14
    }                               15
                                    16
    func k(c bool) (err error) {    17
            if c {                  18
                    return          19
            }                       20
                                    21 to 23, empty
            return err              24
    }                               25

and the file `gen.go`, registered at base 1 of a file set of its own:

    package p                        1
                                     2
    var x int                        3
                                     4
    func p() (err error) {           5
    //line g.y:1                     6
            err = nil                7, reported as line 1 of g.y
            return                   8, reported as line 2
    }                                9, reported as line 3

Indentation is one tab; a position is the byte offset plus the base. -/

/-- The `token.File` of `a.go`. -/
def fileA : token.File :=
  { name := "a.go", base := 1, size := 157,
    lines := [0, 10, 11, 34, 39, 40, 41, 42, 43, 51, 53, 54, 73, 80, 88, 90, 91, 120, 128,
      137, 140, 141, 142, 143, 155],
    infos := [] }

/-- The `token.File` of `gen.go`: the directive of line 6 takes effect at
offset 58, the start of line 7. -/
def fileGen : token.File :=
  { name := "gen.go", base := 1, size := 79,
    lines := [0, 10, 11, 21, 22, 45, 58, 69, 77],
    infos := [{ Offset := 58, Filename := "g.y", Line := 1 }] }

/-- The declaration of `f` in `a.go`: lines 3 to 10, a bare `return` on
line 9. -/
def declF : ast.FuncDecl :=
  { Recv := none, Name := some { NamePos := 17, Name := "f" },
    Type_ := some
      { Params := some { List := [] },
        Results := some { List := [{ Names := [some { NamePos := 22, Name := "err" }],
                                     Type_ := { NamePos := 26, Name := "error" } }] } },
    Body := some { List := [.ExprStmt (.CallExpr (.Ident { NamePos := 36, Name := "g" }) []),
                            .ReturnStmt 45 []] },
    Pos := 12, End := 53 }

/-- The declaration of `g` in `a.go`: lines 12 to 15, named result `n`, a bare
`return` on line 14. -/
def declG : ast.FuncDecl :=
  { Recv := none, Name := some { NamePos := 60, Name := "g" },
    Type_ := some
      { Params := some { List := [] },
        Results := some { List := [{ Names := [some { NamePos := 65, Name := "n" }],
                                     Type_ := { NamePos := 67, Name := "int" } }] } },
    Body := some { List := [.AssignStmt [.Ident { NamePos := 75, Name := "n" }] [.BasicLit 79 "1"],
                            .ReturnStmt 82 []] },
    Pos := 55, End := 90 }

/-- The declaration of `k` in `a.go`: lines 17 to 25, named result `err`; its
only bare `return` stands inside the `if`, and the `return` of line 24 has a
result. -/
def declK : ast.FuncDecl :=
  { Recv := none, Name := some { NamePos := 97, Name := "k" },
    Type_ := some
      { Params := some { List := [{ Names := [some { NamePos := 99, Name := "c" }],
                                    Type_ := { NamePos := 101, Name := "bool" } }] },
        Results := some { List := [{ Names := [some { NamePos := 108, Name := "err" }],
                                     Type_ := { NamePos := 112, Name := "error" } }] } },
    Body := some { List := [.IfStmt (.Ident { NamePos := 125, Name := "c" }) [.ReturnStmt 131 []] none,
                            .ReturnStmt 145 [.Ident { NamePos := 152, Name := "err" }]] },
    Pos := 92, End := 157 }

/-- The declaration of `p` in `gen.go`: it starts on line 5, and with the
directive of line 6 its bare `return` is on line 2 and its end on line 3. -/
def declP : ast.FuncDecl :=
  { Recv := none, Name := some { NamePos := 28, Name := "p" },
    Type_ := some
      { Params := some { List := [] },
        Results := some { List := [{ Names := [some { NamePos := 33, Name := "err" }],
                                     Type_ := { NamePos := 37, Name := "error" } }] } },
    Body := some { List := [.AssignStmt [.Ident { NamePos := 60, Name := "err" }]
                              [.Ident { NamePos := 66, Name := "nil" }],
                            .ReturnStmt 71 []] },
    Pos := 23, End := 79 }

/-- The declaration `declF` with its `Name` set to nil. -/
def declAnon : ast.FuncDecl := { declF with Name := none }

/-- A function literal with the result list and the body of `f`. -/
def litF : ast.Expr :=
  .FuncLit
    { Params := some { List := [] },
      Results := some { List := [{ Names := [some { NamePos := 22, Name := "err" }],
                                   Type_ := { NamePos := 26, Name := "error" } }] } }
    [.ExprStmt (.CallExpr (.Ident { NamePos := 36, Name := "g" }) []), .ReturnStmt 45 []]

/-- The tree of `a.go`. -/
def treeA : ast.File :=
  { Name := some { NamePos := 9, Name := "p" },
    Decls := [.FuncDecl declF, .FuncDecl declG, .FuncDecl declK] }

/-- The tree of `gen.go`. -/
def treeGen : ast.File :=
  { Name := some { NamePos := 9, Name := "p" },
    Decls := [.GenDecl { Specs := [{ Names := [some { NamePos := 16, Name := "x" }],
                                     Type_ := some { NamePos := 18, Name := "int" },
                                     Values := [] }] },
              .FuncDecl declP] }

/-- A visitor over the file set of `a.go`. -/
def visA (maxLength : Nat) : returnsVisitor := { f := { files := [fileA] }, maxLength := maxLength }

/-- A visitor over the file set of `gen.go`. -/
def visGen (maxLength : Nat) : returnsVisitor :=
  { f := { files := [fileGen] }, maxLength := maxLength }

/-- A host on which no path exists. -/
def hostEmpty : Host :=
  { Stat := fun _ => .error "no such file or directory",
    Walk := fun _ => [],
    ParseFile := fun fset _ => (.error "no such file or directory", fset),
    ParseDir := fun fset _ => (.error "no such file or directory", fset) }

/-- A host whose working directory holds the one file `gen.go`, given here as
`parser.ParseFile` returns it. -/
def hostGen : Host :=
  { Stat := fun name =>
      if name = "./" then .ok { IsDir := true }
      else if name = "gen.go" then .ok { IsDir := false }
      else .error "no such file or directory",
    Walk := fun _ => [],
    ParseFile := fun fset name =>
      if name = "gen.go" then (.ok treeGen, { files := fset.files ++ [fileGen] })
      else (.error "no such file or directory", fset),
    ParseDir := fun fset _ => (.error "no such file or directory", fset) }

/-! ## Arithmetic of the machine integers -/

theorem wrapInt_upper (x : Int) : wrapInt x < 2 ^ 63 := by
  unfold wrapInt; omega

/-- Line numbers are non-negative `int`s, so their difference does not
overflow: the line length computed is the plain difference. -/
theorem wrapInt_sub_lines {e s : Int} (he : 0 ≤ e) (he2 : e < 2 ^ 63) (hs : 0 ≤ s)
    (hs2 : s < 2 ^ 63) : wrapInt (e - s) = e - s := by
  unfold wrapInt; omega

theorem toUint_of_nonneg {x : Int} (h1 : 0 ≤ x) (h2 : x < 2 ^ 64) : (toUint x : Int) = x := by
  unfold toUint
  rw [Int.toNat_of_nonneg (by omega)]
  omega

/-- For a non-negative `int`, the test `uint(n) > m` is the test `n > m`. -/
theorem toUint_wrapInt_gt_iff (x : Int) (m : Nat) (h : 0 ≤ wrapInt x) :
    toUint (wrapInt x) > m ↔ (m : Int) < wrapInt x := by
  have h2 := wrapInt_upper x
  have h3 := toUint_of_nonneg h (by omega)
  omega

/-! ## Position lookup -/

theorem fileSet_File_range {s : token.FileSet} {p : token.Pos} {f : token.File}
    (h : s.File p = some f) :
    p ≠ token.NoPos ∧ f.base ≤ p ∧ p ≤ f.base + f.size := by
  unfold token.FileSet.File at h
  split at h
  · rename_i hp
    refine ⟨hp, ?_⟩
    unfold token.FileSet.file at h
    simp only at h
    split at h
    · rename_i hi
      split at h
      · rename_i g hg
        split at h
        · rename_i hle
          cases h
          refine ⟨?_, hle⟩
          unfold token.searchFiles at hi hg
          rw [List.get?_eq_some] at hg
          obtain ⟨hlt, hget⟩ := hg
          have hlt2 : (List.findIdx (fun f => decide (f.base > p)) s.files - 1 : Int).toNat
              < List.findIdx (fun f => decide (f.base > p)) s.files := by omega
          have := List.not_of_lt_findIdx hlt2
          simp only [gt_iff_lt, decide_eq_true_eq, not_lt] at this
          rw [← hget]
          simpa using this
        · cases h
      · cases h
    · cases h
  · cases h

theorem position_of_File {s : token.FileSet} {p : token.Pos} {f : token.File}
    (h : s.File p = some f) :
    token.File.Position (some f) p = some (f.position p true) := by
  obtain ⟨h1, h2, h3⟩ := fileSet_File_range h
  unfold token.File.Position token.File.PositionFor
  rw [if_pos h1]
  simp only
  have hc : ¬ (p < f.base ∨ p > f.base + f.size) := by
    unfold token.Pos at *
    omega
  rw [if_neg hc]

/-! ## The scan of a body -/

theorem scanStmt_eq (v : returnsVisitor) (d : ast.FuncDecl) (n : Int) (stmt : ast.Stmt) :
    scanStmt v d n stmt = some (match bareReturnPos stmt with
      | some p => reportAt v d n p
      | none => []) := by
  cases stmt with
  | ReturnStmt p results =>
    unfold scanStmt bareReturnPos reportAt
    by_cases hr : results.length = 0
    · simp only [hr, if_true]
      cases hf : v.f.File p with
      | none => rfl
      | some file =>
        simp only
        by_cases hm : toUint n > v.maxLength
        · simp only [hm, if_true]
          cases hn : d.Name with
          | none => rfl
          | some name => simp only [position_of_File hf]
        · simp only [hm, if_false]
    · simp only [hr, if_false]
  | _ => rfl

theorem scanBody_eq (v : returnsVisitor) (d : ast.FuncDecl) (n : Int) (list : List ast.Stmt) :
    scanBody v d n list = some ((bareReturns list).flatMap (reportAt v d n)) := by
  induction list with
  | nil => rfl
  | cons stmt rest ih =>
    unfold scanBody
    rw [scanStmt_eq, ih]
    unfold bareReturns
    cases h : bareReturnPos stmt with
    | none => simp [List.filterMap_cons, h]
    | some p => simp [List.filterMap_cons, h]

/-! ## The visitor on a declaration -/

theorem namedReturns_length_pos {results : ast.FieldList} {field : ast.Field} {ident : ast.Ident}
    (hfield : field ∈ results.List) (hident : some ident ∈ field.Names) :
    (namedReturns results).length > 0 := by
  apply List.length_pos_of_mem (a := ident)
  unfold namedReturns
  rw [List.mem_flatMap]
  exact ⟨field, hfield, by rw [List.mem_filterMap]; exact ⟨some ident, hident, rfl⟩⟩

/-- What `Visit` does on a declaration, in terms of the direct bare returns. -/
theorem visit_funcDecl_eq (v : returnsVisitor) (d : ast.FuncDecl) :
    v.Visit (.FuncDecl d) =
      match resultInfo v d with
      | none => none
      | some (named, n) =>
        some (if named.length > 0 then (directBareReturns d).flatMap (reportAt v d n) else [], v) := by
  unfold returnsVisitor.Visit directBareReturns
  simp only
  cases resultInfo v d with
  | none => rfl
  | some r =>
    obtain ⟨named, n⟩ := r
    simp only
    by_cases hn : named.length > 0
    · simp only [hn, if_true]
      cases d.Body with
      | none => simp
      | some body => simp only [scanBody_eq]
    · simp only [hn, if_false]

theorem visit_other (v : returnsVisitor) (node : ast.Node) (h : ∀ d, node ≠ .FuncDecl d) :
    v.Visit node = some ([], v) := by
  cases node with
  | FuncDecl d => exact absurd rfl (h d)
  | _ => rfl

theorem visit_same_visitor (v : returnsVisitor) (node : ast.Node) :
    v.Visit node = none ∨ ∃ out, v.Visit node = some (out, v) := by
  cases node with
  | FuncDecl d =>
    rw [visit_funcDecl_eq]
    cases resultInfo v d with
    | none => exact Or.inl rfl
    | some r => exact Or.inr ⟨_, rfl⟩
  | _ => exact Or.inr ⟨[], rfl⟩

theorem resultInfo_of_results {v : returnsVisitor} {d : ast.FuncDecl} {type : ast.FuncType}
    {results : ast.FieldList} (htype : d.Type_ = some type) (hresults : type.Results = some results) :
    resultInfo v d = (functionLineLength v d).map (fun n => (namedReturns results, n)) := by
  unfold resultInfo
  rw [htype]
  simp only [hresults]
  cases functionLineLength v d <;> rfl

theorem functionLineLength_eq {v : returnsVisitor} {d : ast.FuncDecl} {file : token.File}
    {pe : token.Position} (hfile : v.f.File d.Pos = some file)
    (hend : token.File.Position (some file) d.End = some pe) :
    functionLineLength v d = some (wrapInt (pe.Line - (file.position d.Pos true).Line)) := by
  unfold functionLineLength
  simp only [hfile, hend, position_of_File hfile]

/-! ## The walk -/

theorem andThen_nil_left (b : Option (List Diagnostic)) : andThen (some []) b = b := by
  cases b <;> rfl

theorem andThen_nil_right (a : Option (List Diagnostic)) : andThen a (some []) = a := by
  cases a with
  | none => rfl
  | some x => simp [andThen]

/-- On a node that is no declaration of a function, a walk is the walk of the
children with the same visitor. -/
theorem walkNode_other (v : returnsVisitor) (node : ast.Node)
    (children : returnsVisitor → Option (List Diagnostic)) (h : ∀ d, node ≠ .FuncDecl d) :
    walkNode v node children = children v := by
  unfold walkNode
  rw [visit_other v node h]
  simp only
  rw [visit_other v ast.Node.nil (by intro d hd; cases hd)]
  simp [andThen_nil_left, andThen_nil_right]

theorem walkNode_of_panic {v : returnsVisitor} {node : ast.Node}
    {children : returnsVisitor → Option (List Diagnostic)} (h : v.Visit node = none) :
    walkNode v node children = none := by
  unfold walkNode
  rw [h]

theorem walkNode_of_visit {v : returnsVisitor} {node : ast.Node} {out : List Diagnostic}
    {children : returnsVisitor → Option (List Diagnostic)} (h : v.Visit node = some (out, v)) :
    walkNode v node children = andThen (some out) (children v) := by
  unfold walkNode
  rw [h]
  simp only
  rw [visit_other v ast.Node.nil (by intro d hd; cases hd)]
  simp [andThen_nil_right]

theorem walkIdent_eq (v : returnsVisitor) (x : Option ast.Ident) : walkIdent v x = some [] := by
  unfold walkIdent
  rw [walkNode_other _ _ _ (by intro d hd; cases hd)]

theorem walkIdentList_eq (v : returnsVisitor) (xs : List (Option ast.Ident)) :
    walkIdentList v xs = some [] := by
  induction xs with
  | nil => rfl
  | cons x xs ih => unfold walkIdentList; rw [walkIdent_eq, ih]; rfl

theorem walkField_eq (v : returnsVisitor) (f : ast.Field) : walkField v f = some [] := by
  unfold walkField
  rw [walkNode_other _ _ _ (by intro d hd; cases hd), walkIdentList_eq, walkIdent_eq]; rfl

theorem walkFields_eq (v : returnsVisitor) (fs : List ast.Field) : walkFields v fs = some [] := by
  induction fs with
  | nil => rfl
  | cons f fs ih => unfold walkFields; rw [walkField_eq, ih]; rfl

theorem walkFieldList_eq (v : returnsVisitor) (l : Option ast.FieldList) :
    walkFieldList v l = some [] := by
  cases l with
  | none => rfl
  | some l =>
    show walkNode v (.FieldList l) (fun w => walkFields w l.List) = some []
    rw [walkNode_other _ _ _ (by intro d hd; cases hd), walkFields_eq]

theorem walkFuncType_eq (v : returnsVisitor) (t : ast.FuncType) : walkFuncType v t = some [] := by
  unfold walkFuncType
  rw [walkNode_other _ _ _ (by intro d hd; cases hd), walkFieldList_eq, walkFieldList_eq]; rfl

mutual
theorem walkExpr_eq (v : returnsVisitor) : ∀ e : ast.Expr, walkExpr v e = some []
  | .Ident x => by
    unfold walkExpr; rw [walkNode_other _ _ _ (by intro d hd; cases hd)]
  | .BasicLit p s => by
    unfold walkExpr; rw [walkNode_other _ _ _ (by intro d hd; cases hd)]
  | .FuncLit t body => by
    unfold walkExpr
    rw [walkNode_other _ _ _ (by intro d hd; cases hd), walkFuncType_eq,
      walkNode_other _ _ _ (by intro d hd; cases hd), walkStmtList_eq v body]; rfl
  | .CallExpr f args => by
    unfold walkExpr
    rw [walkNode_other _ _ _ (by intro d hd; cases hd), walkExpr_eq v f, walkExprList_eq v args]; rfl
theorem walkExprList_eq (v : returnsVisitor) : ∀ es : List ast.Expr, walkExprList v es = some []
  | [] => by unfold walkExprList; rfl
  | e :: es => by unfold walkExprList; rw [walkExpr_eq v e, walkExprList_eq v es]; rfl
theorem walkExprOpt_eq (v : returnsVisitor) : ∀ e : Option ast.Expr, walkExprOpt v e = some []
  | none => by unfold walkExprOpt; rfl
  | some e => by unfold walkExprOpt; exact walkExpr_eq v e
theorem walkStmt_eq (v : returnsVisitor) : ∀ s : ast.Stmt, walkStmt v s = some []
  | .ExprStmt x => by
    unfold walkStmt; rw [walkNode_other _ _ _ (by intro d hd; cases hd), walkExpr_eq v x]
  | .AssignStmt lhs rhs => by
    unfold walkStmt
    rw [walkNode_other _ _ _ (by intro d hd; cases hd), walkExprList_eq v lhs,
      walkExprList_eq v rhs]; rfl
  | .ReturnStmt p results => by
    unfold walkStmt; rw [walkNode_other _ _ _ (by intro d hd; cases hd), walkExprList_eq v results]
  | .BlockStmt list => by
    unfold walkStmt; rw [walkNode_other _ _ _ (by intro d hd; cases hd), walkStmtList_eq v list]
  | .IfStmt cond body els => by
    unfold walkStmt
    rw [walkNode_other _ _ _ (by intro d hd; cases hd), walkExpr_eq v cond,
      walkNode_other _ _ _ (by intro d hd; cases hd), walkStmtList_eq v body,
      walkStmtOpt_eq v els]; rfl
  | .ForStmt cond body => by
    unfold walkStmt
    rw [walkNode_other _ _ _ (by intro d hd; cases hd), walkExprOpt_eq v cond,
      walkNode_other _ _ _ (by intro d hd; cases hd), walkStmtList_eq v body]; rfl
theorem walkStmtList_eq (v : returnsVisitor) : ∀ ss : List ast.Stmt, walkStmtList v ss = some []
  | [] => by unfold walkStmtList; rfl
  | s :: ss => by unfold walkStmtList; rw [walkStmt_eq v s, walkStmtList_eq v ss]; rfl
theorem walkStmtOpt_eq (v : returnsVisitor) : ∀ s : Option ast.Stmt, walkStmtOpt v s = some []
  | none => by unfold walkStmtOpt; rfl
  | some s => by unfold walkStmtOpt; exact walkStmt_eq v s
end

theorem walkValueSpec_eq (v : returnsVisitor) (s : ast.ValueSpec) :
    walkValueSpec v s = some [] := by
  unfold walkValueSpec
  rw [walkNode_other _ _ _ (by intro d hd; cases hd), walkIdentList_eq, walkExprList_eq]
  cases s.Type_ with
  | none => rfl
  | some t => simp only [walkIdent_eq]; rfl

theorem walkSpecs_eq (v : returnsVisitor) (ss : List ast.ValueSpec) : walkSpecs v ss = some [] := by
  induction ss with
  | nil => rfl
  | cons s ss ih => unfold walkSpecs; rw [walkValueSpec_eq, ih]; rfl

/-- The walk of a declaration logs what `Visit` logs on the declaration itself:
no node below it adds anything. -/
theorem walkDecl_funcDecl (v : returnsVisitor) (d : ast.FuncDecl) (t : ast.FuncType)
    (ht : d.Type_ = some t) :
    walkDecl v (.FuncDecl d) = (v.Visit (.FuncDecl d)).map Prod.fst := by
  show walkNode v (.FuncDecl d) _ = _
  rcases visit_same_visitor v (.FuncDecl d) with h | ⟨out, h⟩
  · rw [walkNode_of_panic h, h]; rfl
  · rw [walkNode_of_visit h, h]
    simp only [ht, walkFieldList_eq, walkIdent_eq, walkFuncType_eq, Option.map_some',
      andThen_nil_left]
    cases d.Body with
    | none => simp [andThen]
    | some b =>
      simp only
      rw [walkNode_other _ _ _ (by intro d hd; cases hd), walkStmtList_eq]
      simp [andThen]

/-! ## The claims -/

theorem reportAt_of_file {v : returnsVisitor} {d : ast.FuncDecl} {n : Int} {p : token.Pos}
    {file : token.File} {name : ast.Ident} (hfile : v.f.File p = some file)
    (hname : d.Name = some name) (hgt : toUint n > v.maxLength) :
    reportAt v d n p = [{ file := file.Name, line := (file.position p true).Line,
                          name := name.Name, span := n }] := by
  unfold reportAt
  simp only [hfile, hname, hgt, if_true]

theorem reportAt_of_not_gt {v : returnsVisitor} {d : ast.FuncDecl} {n : Int} {p : token.Pos}
    (h : ¬ toUint n > v.maxLength) : reportAt v d n p = [] := by
  unfold reportAt
  cases v.f.File p with
  | none => rfl
  | some file => simp only [h, if_false]

theorem reportAt_of_anonymous {v : returnsVisitor} {d : ast.FuncDecl} {n : Int} {p : token.Pos}
    (h : d.Name = none) : reportAt v d n p = [] := by
  unfold reportAt
  cases v.f.File p with
  | none => rfl
  | some file => simp only [h]; split <;> rfl

theorem flatMap_eq_nil_of_forall {α β : Type} (l : List α) (f : α → List β)
    (h : ∀ a ∈ l, f a = []) : l.flatMap f = [] := by
  induction l with
  | nil => rfl
  | cons a l ih =>
    rw [List.flatMap_cons, h a (List.mem_cons_self a l), ih (fun b hb => h b (List.mem_cons_of_mem a hb))]
    rfl

theorem flatMap_eq_map_of_forall {α β : Type} (l : List α) (f : α → List β) (g : α → β)
    (h : ∀ a ∈ l, f a = [g a]) : l.flatMap f = l.map g := by
  induction l with
  | nil => rfl
  | cons a l ih =>
    rw [List.flatMap_cons, h a (List.mem_cons_self a l), ih (fun b hb => h b (List.mem_cons_of_mem a hb))]
    rfl

/-- C1: for a named function declaration with at least one named result
identifier, a present body and a line span (line of `End()` minus line of
`Pos()`, as Go computes it) above `maxLength`, whose positions belong to a file
of the file set, `Visit` logs exactly one diagnostic per return statement with
zero result expressions standing directly in the body, in statement order,
each with the file name and the line of that return, the name of the function
and its line span; returns with results add nothing. -/
theorem visit_reports_each_direct_bare_return
    (v : returnsVisitor) (funcDecl : ast.FuncDecl) (name : ast.Ident) (type : ast.FuncType)
    (results : ast.FieldList) (field : ast.Field) (ident : ast.Ident) (body : ast.BlockStmt)
    (file : token.File) (pe : token.Position)
    (hname : funcDecl.Name = some name)
    (htype : funcDecl.Type_ = some type) (hresults : type.Results = some results)
    (hfield : field ∈ results.List) (hident : some ident ∈ field.Names)
    (hbody : funcDecl.Body = some body)
    (hfile : v.f.File funcDecl.Pos = some file)
    (hend : token.File.Position (some file) funcDecl.End = some pe)
    (hreturns : ∀ p ∈ bareReturns body.List, v.f.File p = some file)
    (hlong : (v.maxLength : Int) < wrapInt (pe.Line - (file.position funcDecl.Pos true).Line)) :
    v.Visit (.FuncDecl funcDecl) =
      some ((bareReturns body.List).map (fun p =>
        { file := file.Name, line := (file.position p true).Line, name := name.Name,
          span := wrapInt (pe.Line - (file.position funcDecl.Pos true).Line) }), v) := by
  have hgt : toUint (wrapInt (pe.Line - (file.position funcDecl.Pos true).Line)) > v.maxLength := by
    rw [toUint_wrapInt_gt_iff _ _ (by omega)]
    exact hlong
  rw [visit_funcDecl_eq, resultInfo_of_results htype hresults, functionLineLength_eq hfile hend]
  simp only [Option.map_some', namedReturns_length_pos hfield hident, if_true]
  unfold directBareReturns
  rw [hbody]
  simp only
  rw [flatMap_eq_map_of_forall]
  intro p hp
  exact reportAt_of_file (hreturns p hp) hname hgt

/-- The scenario of C1: `f` spans 7 lines, the threshold is 5, the named
result is `err` and the body has one direct bare `return`, on line 9. -/
theorem visit_reports_each_direct_bare_return_witness :
    (visA 5).Visit (.FuncDecl declF)
      = some ([{ file := "a.go", line := 9, name := "f", span := 7 }], visA 5) :=
  visit_reports_each_direct_bare_return (visA 5) declF { NamePos := 17, Name := "f" }
    { Params := some { List := [] },
      Results := some { List := [{ Names := [some { NamePos := 22, Name := "err" }],
                                   Type_ := { NamePos := 26, Name := "error" } }] } }
    { List := [{ Names := [some { NamePos := 22, Name := "err" }],
                 Type_ := { NamePos := 26, Name := "error" } }] }
    { Names := [some { NamePos := 22, Name := "err" }], Type_ := { NamePos := 26, Name := "error" } }
    { NamePos := 22, Name := "err" }
    { List := [.ExprStmt (.CallExpr (.Ident { NamePos := 36, Name := "g" }) []), .ReturnStmt 45 []] }
    fileA (fileA.position 53 true)
    rfl rfl rfl (List.Mem.head _) (List.Mem.head _) rfl (by decide) (by decide) (by decide)
    (by decide)

theorem resultInfo_isSome_of_length {v : returnsVisitor} {d : ast.FuncDecl} {n : Int}
    (h : functionLineLength v d = some n) : ∃ r, resultInfo v d = some r := by
  unfold resultInfo
  cases d.Type_ with
  | none => exact ⟨_, rfl⟩
  | some type =>
    simp only
    cases type.Results with
    | none => exact ⟨_, rfl⟩
    | some results => simp only [h]; exact ⟨_, rfl⟩

/-- C8: on every node whose positions belong to a file of the visitor's file
set, `Visit` completes without a panic, for every `maxLength`; this covers the
nodes that are no declarations and the nil node. -/
theorem visit_total (v : returnsVisitor) (node : ast.Node) (h : positioned v.f node = true) :
    ∃ out, v.Visit node = some (out, v) := by
  cases node with
  | FuncDecl d =>
    unfold positioned at h
    simp only at h
    cases hfile : v.f.File d.Pos with
    | none => rw [hfile] at h; cases h
    | some file =>
      rw [hfile] at h
      simp only [decide_eq_true_eq] at h
      obtain ⟨r, hr⟩ := resultInfo_isSome_of_length
        (functionLineLength_eq hfile (position_of_File h))
      rw [visit_funcDecl_eq, hr]
      exact ⟨_, rfl⟩
  | _ => exact ⟨[], rfl⟩

/-- Instances of C8: the declaration `f`, a return statement and the nil node. -/
theorem visit_total_witness :
    (∃ out, (visA 5).Visit (.FuncDecl declF) = some (out, visA 5))
    ∧ (∃ out, (visA 5).Visit (.Stmt (.ReturnStmt 45 [])) = some (out, visA 5))
    ∧ (∃ out, (visA 5).Visit .nil = some (out, visA 5)) :=
  ⟨visit_total (visA 5) (.FuncDecl declF) (by decide),
   visit_total (visA 5) (.Stmt (.ReturnStmt 45 [])) rfl,
   visit_total (visA 5) .nil rfl⟩

/-- C9: nothing is logged for a function without a name.  A declaration
whose `Name` is nil logs nothing, whatever its results, body and length; on a
function literal `Visit` returns at once, and the whole walk of a function
literal logs nothing. -/
theorem anonymous_functions_are_silent (v : returnsVisitor) :
    (∀ d : ast.FuncDecl, d.Name = none →
      v.Visit (.FuncDecl d) = none ∨ v.Visit (.FuncDecl d) = some ([], v))
    ∧ (∀ type body, v.Visit (.Expr (.FuncLit type body)) = some ([], v))
    ∧ (∀ type body, walkExpr v (.FuncLit type body) = some []) := by
  refine ⟨?_, fun _ _ => rfl, fun type body => walkExpr_eq v _⟩
  intro d hd
  rw [visit_funcDecl_eq]
  cases resultInfo v d with
  | none => exact Or.inl rfl
  | some r =>
    refine Or.inr ?_
    obtain ⟨named, n⟩ := r
    simp only
    rw [flatMap_eq_nil_of_forall _ _ (fun p _ => reportAt_of_anonymous hd)]
    simp

/-- An instance of C9: `f` without its name logs nothing, and so does the
function literal with the same results and body. -/
theorem anonymous_functions_are_silent_witness :
    (visA 5).Visit (.FuncDecl declAnon) = some ([], visA 5)
    ∧ walkExpr (visA 5) litF = some [] :=
  ⟨((anonymous_functions_are_silent (visA 5)).1 declAnon rfl).resolve_left (by decide),
   (anonymous_functions_are_silent (visA 5)).2.2 _ _⟩

theorem bareReturns_append (a b : List ast.Stmt) :
    bareReturns (a ++ b) = bareReturns a ++ bareReturns b := by
  unfold bareReturns
  rw [List.filterMap_append]

theorem bareReturns_insert (pre post : List ast.Stmt) (s : ast.Stmt) (h : bareReturnPos s = none) :
    bareReturns (pre ++ s :: post) = bareReturns (pre ++ post) := by
  rw [bareReturns_append, bareReturns_append]
  congr 1
  unfold bareReturns
  rw [List.filterMap_cons, h]

theorem visit_body_congr (v : returnsVisitor) (d : ast.FuncDecl) (l1 l2 : List ast.Stmt)
    (h : bareReturns l1 = bareReturns l2) :
    v.Visit (.FuncDecl { d with Body := some { List := l1 } })
      = v.Visit (.FuncDecl { d with Body := some { List := l2 } }) := by
  rw [visit_funcDecl_eq, visit_funcDecl_eq]
  have hr : resultInfo v { d with Body := some { List := l1 } }
      = resultInfo v { d with Body := some { List := l2 } } := rfl
  rw [hr]
  cases resultInfo v { d with Body := some { List := l2 } } with
  | none => rfl
  | some r =>
    obtain ⟨named, n⟩ := r
    simp only [directBareReturns, h]
    rfl

/-- C5: the scan of a body is shallow.  An `if`, a `for` or a block standing
in the statement list of the body changes nothing in what `Visit` does,
whatever it contains; a declaration none of whose direct statements is a bare
return logs nothing; and the walk of the statements of a body, which hands the
nested statements to `Visit` one by one, logs nothing either. -/
theorem visit_scan_is_shallow (v : returnsVisitor) (d : ast.FuncDecl) :
    (∀ (pre post : List ast.Stmt) cond body els,
      v.Visit (.FuncDecl { d with Body := some { List := pre ++ .IfStmt cond body els :: post } })
        = v.Visit (.FuncDecl { d with Body := some { List := pre ++ post } }))
    ∧ (∀ (pre post : List ast.Stmt) cond body,
      v.Visit (.FuncDecl { d with Body := some { List := pre ++ .ForStmt cond body :: post } })
        = v.Visit (.FuncDecl { d with Body := some { List := pre ++ post } }))
    ∧ (∀ (pre post : List ast.Stmt) list,
      v.Visit (.FuncDecl { d with Body := some { List := pre ++ .BlockStmt list :: post } })
        = v.Visit (.FuncDecl { d with Body := some { List := pre ++ post } }))
    ∧ (directBareReturns d = [] →
      v.Visit (.FuncDecl d) = none ∨ v.Visit (.FuncDecl d) = some ([], v))
    ∧ (∀ list : List ast.Stmt, walkStmtList v list = some []) := by
  refine ⟨?_, ?_, ?_, ?_, walkStmtList_eq v⟩
  · intro pre post cond body els
    exact visit_body_congr v d _ _ (bareReturns_insert pre post _ rfl)
  · intro pre post cond body
    exact visit_body_congr v d _ _ (bareReturns_insert pre post _ rfl)
  · intro pre post list
    exact visit_body_congr v d _ _ (bareReturns_insert pre post _ rfl)
  · intro h
    rw [visit_funcDecl_eq, h]
    cases resultInfo v d with
    | none => exact Or.inl rfl
    | some r => refine Or.inr ?_; simp

/-- An instance of C5: `k` has the named result `err` and spans 8 lines
against a threshold of 5; its only bare `return` stands inside an `if`, and
nothing is logged. -/
theorem visit_scan_is_shallow_witness :
    functionLineLength (visA 5) declK = some 8
    ∧ (visA 5).Visit (.FuncDecl declK) = some ([], visA 5) :=
  ⟨by decide,
   ((visit_scan_is_shallow (visA 5) declK).2.2.2.1 (by decide)).resolve_left (by decide)⟩

theorem emitted_funcDecl_eq (v : returnsVisitor) (d : ast.FuncDecl) :
    emitted v (.FuncDecl d) =
      match resultInfo v d with
      | none => []
      | some (named, n) =>
        if named.length > 0 then (directBareReturns d).flatMap (reportAt v d n) else [] := by
  unfold emitted
  rw [visit_funcDecl_eq]
  cases resultInfo v d with
  | none => rfl
  | some r => rfl

theorem reportAt_length_one {v : returnsVisitor} {d : ast.FuncDecl} {n : Int} {p : token.Pos}
    {name : ast.Ident} (hfile : v.f.File p ≠ none) (hname : d.Name = some name)
    (hgt : toUint n > v.maxLength) : (reportAt v d n p).length = 1 := by
  cases hf : v.f.File p with
  | none => exact absurd hf hfile
  | some file => rw [reportAt_of_file hf hname hgt]; rfl

theorem length_flatMap_of_forall {α β : Type} (l : List α) (f : α → List β)
    (h : ∀ a ∈ l, (f a).length = 1) : (l.flatMap f).length = l.length := by
  induction l with
  | nil => rfl
  | cons a l ih =>
    rw [List.flatMap_cons, List.length_append, h a (List.mem_cons_self a l),
      ih (fun b hb => h b (List.mem_cons_of_mem a hb)), List.length_cons]
    omega

theorem mem_reportAt {v : returnsVisitor} {d : ast.FuncDecl} {n : Int} {p : token.Pos}
    {a : Diagnostic} (h : a ∈ reportAt v d n p) :
    a.span = n ∧ ∃ name, d.Name = some name ∧ a.name = name.Name := by
  unfold reportAt at h
  cases hf : v.f.File p with
  | none => rw [hf] at h; cases h
  | some file =>
    rw [hf] at h
    simp only at h
    split at h
    · cases hn : d.Name with
      | none => rw [hn] at h; cases h
      | some name =>
        rw [hn] at h
        simp only [List.mem_singleton] at h
        subst h
        exact ⟨rfl, name, rfl, rfl⟩
    · cases h

theorem mem_emitted {v : returnsVisitor} {d : ast.FuncDecl} {a : Diagnostic}
    (h : a ∈ emitted v (.FuncDecl d)) :
    ∃ named n, resultInfo v d = some (named, n) ∧ a.span = n
      ∧ ∃ name, d.Name = some name ∧ a.name = name.Name := by
  rw [emitted_funcDecl_eq] at h
  cases hr : resultInfo v d with
  | none => rw [hr] at h; cases h
  | some r =>
    obtain ⟨named, n⟩ := r
    rw [hr] at h
    simp only at h
    split at h
    · rw [List.mem_flatMap] at h
      obtain ⟨p, _, hp⟩ := h
      exact ⟨named, n, rfl, mem_reportAt hp⟩
    · cases h

theorem exists_of_namedReturns_length_pos {results : ast.FieldList}
    (h : (namedReturns results).length > 0) :
    ∃ field ∈ results.List, ∃ ident, some ident ∈ field.Names := by
  obtain ⟨ident, hmem⟩ := List.exists_mem_of_length_pos h
  unfold namedReturns at hmem
  rw [List.mem_flatMap] at hmem
  obtain ⟨field, hfield, hid⟩ := hmem
  rw [List.mem_filterMap] at hid
  obtain ⟨o, ho, hoe⟩ := hid
  cases o with
  | none => cases hoe
  | some i => exact ⟨field, hfield, i, ho⟩

theorem resultInfo_some_named {v : returnsVisitor} {d : ast.FuncDecl} {named : List ast.Ident}
    {n : Int} (h : resultInfo v d = some (named, n)) (hpos : named.length > 0) :
    ∃ type results, d.Type_ = some type ∧ type.Results = some results
      ∧ named = namedReturns results ∧ functionLineLength v d = some n := by
  unfold resultInfo at h
  cases htype : d.Type_ with
  | none => rw [htype] at h; cases h; cases hpos
  | some type =>
    rw [htype] at h
    simp only at h
    cases hres : type.Results with
    | none => rw [hres] at h; cases h; cases hpos
    | some results =>
      rw [hres] at h
      simp only at h
      cases hlen : functionLineLength v d with
      | none => rw [hlen] at h; cases h
      | some m =>
        rw [hlen] at h
        cases h
        exact ⟨type, results, rfl, hres, rfl, rfl⟩

/-- What holds of a declaration for which `Visit` logs something: a named
result, a body with a direct bare return, and a line length whose conversion
to `uint` is above `maxLength`. -/
theorem conditions_of_mem_emitted {v : returnsVisitor} {d : ast.FuncDecl} {a : Diagnostic}
    (h : a ∈ emitted v (.FuncDecl d)) :
    (∃ type results field ident, d.Type_ = some type ∧ type.Results = some results
      ∧ field ∈ results.List ∧ some ident ∈ field.Names)
    ∧ (∃ body, d.Body = some body ∧ bareReturns body.List ≠ [])
    ∧ (∃ n, functionLineLength v d = some n ∧ toUint n > v.maxLength ∧ a.span = n) := by
  rw [emitted_funcDecl_eq] at h
  cases hr : resultInfo v d with
  | none => rw [hr] at h; cases h
  | some r =>
    obtain ⟨named, n⟩ := r
    rw [hr] at h
    simp only at h
    by_cases hn : named.length > 0
    · rw [if_pos hn, List.mem_flatMap] at h
      obtain ⟨p, hp, hap⟩ := h
      obtain ⟨type, results, htype, hres, hnamed, hlen⟩ := resultInfo_some_named hr hn
      rw [hnamed] at hn
      obtain ⟨field, hfield, ident, hident⟩ := exists_of_namedReturns_length_pos hn
      refine ⟨⟨type, results, field, ident, htype, hres, hfield, hident⟩, ?_, n, hlen, ?_,
        (mem_reportAt hap).1⟩
      · unfold directBareReturns at hp
        cases hb : d.Body with
        | none => rw [hb] at hp; cases hp
        | some body =>
          rw [hb] at hp
          exact ⟨body, rfl, List.ne_nil_of_mem hp⟩
      · by_contra hgt
        rw [reportAt_of_not_gt hgt] at hap
        cases hap
    · rw [if_neg hn] at h; cases h

theorem functionLineLength_lt {v : returnsVisitor} {d : ast.FuncDecl} {n : Int}
    (h : functionLineLength v d = some n) : n < 2 ^ 63 := by
  unfold functionLineLength at h
  simp only at h
  split at h
  · cases h; exact wrapInt_upper _
  · cases h

/-- A declaration whose line length is non-negative and at most `maxLength`
logs nothing. -/
theorem emitted_nil_of_span_le {v : returnsVisitor} {d : ast.FuncDecl} {n : Int}
    (hlen : functionLineLength v d = some n) (h0 : 0 ≤ n) (hle : n ≤ v.maxLength) :
    emitted v (.FuncDecl d) = [] := by
  cases hem : emitted v (.FuncDecl d) with
  | nil => rfl
  | cons a rest =>
    have hmem : a ∈ emitted v (.FuncDecl d) := by rw [hem]; exact List.mem_cons_self a rest
    obtain ⟨_, _, m, hm, hgt, _⟩ := conditions_of_mem_emitted hmem
    rw [hlen] at hm
    cases hm
    have hup := functionLineLength_lt hlen
    have := toUint_of_nonneg h0 (by omega)
    omega

/-- C10: raising the threshold never adds findings, and the findings of one
declaration are all or nothing.  For thresholds `m1 ≤ m2` what is logged with
`m2` is nothing or what is logged with `m1`; for any threshold the number of
diagnostics of a declaration whose bare returns lie in files of the set is
zero or the number of its direct bare returns; and all diagnostics of a
declaration carry the same function name and the same span. -/
theorem threshold_all_or_nothing (fs : token.FileSet) (d : ast.FuncDecl) :
    (∀ m1 m2 : Nat, m1 ≤ m2 →
      emitted { f := fs, maxLength := m2 } (.FuncDecl d) = []
      ∨ emitted { f := fs, maxLength := m2 } (.FuncDecl d)
          = emitted { f := fs, maxLength := m1 } (.FuncDecl d))
    ∧ (∀ m : Nat, (∀ p ∈ directBareReturns d, fs.File p ≠ none) →
      (emitted { f := fs, maxLength := m } (.FuncDecl d)).length = 0
      ∨ (emitted { f := fs, maxLength := m } (.FuncDecl d)).length = (directBareReturns d).length)
    ∧ (∀ m : Nat, ∀ a ∈ emitted { f := fs, maxLength := m } (.FuncDecl d),
        ∀ b ∈ emitted { f := fs, maxLength := m } (.FuncDecl d),
          a.name = b.name ∧ a.span = b.span) := by
  refine ⟨?_, ?_, ?_⟩
  · intro m1 m2 hle
    rw [emitted_funcDecl_eq, emitted_funcDecl_eq]
    have hr : resultInfo { f := fs, maxLength := m2 } d
        = resultInfo { f := fs, maxLength := m1 } d := rfl
    rw [hr]
    cases resultInfo { f := fs, maxLength := m1 } d with
    | none => exact Or.inl rfl
    | some r =>
      obtain ⟨named, n⟩ := r
      simp only
      by_cases hn : named.length > 0
      · simp only [hn, if_true]
        by_cases hgt : toUint n > m2
        · refine Or.inr ?_
          have hgt1 : toUint n > m1 := by omega
          have hfun : reportAt { f := fs, maxLength := m2 } d n
              = reportAt { f := fs, maxLength := m1 } d n := by
            funext p
            unfold reportAt
            simp only [hgt, hgt1, if_true]
          rw [hfun]
        · exact Or.inl (flatMap_eq_nil_of_forall _ _ (fun p _ => reportAt_of_not_gt hgt))
      · simp only [hn, if_false]; exact Or.inl trivial
  · intro m hfiles
    rw [emitted_funcDecl_eq]
    cases resultInfo { f := fs, maxLength := m } d with
    | none => exact Or.inl rfl
    | some r =>
      obtain ⟨named, n⟩ := r
      simp only
      by_cases hn : named.length > 0
      · simp only [hn, if_true]
        by_cases hgt : toUint n > m
        · cases hname : d.Name with
          | none =>
            rw [flatMap_eq_nil_of_forall _ _ (fun p _ => reportAt_of_anonymous hname)]
            exact Or.inl rfl
          | some name =>
            exact Or.inr (length_flatMap_of_forall _ _
              (fun p hp => reportAt_length_one (hfiles p hp) hname hgt))
        · rw [flatMap_eq_nil_of_forall _ _ (fun p _ => reportAt_of_not_gt hgt)]
          exact Or.inl rfl
      · simp only [hn, if_false]; exact Or.inl rfl
  · intro m a ha b hb
    obtain ⟨na, n, hra, hsa, name, hna, hnamea⟩ := mem_emitted ha
    obtain ⟨nb, n', hrb, hsb, name', hnb, hnameb⟩ := mem_emitted hb
    rw [hra] at hrb
    rw [hna] at hnb
    cases hrb
    cases hnb
    exact ⟨by rw [hnamea, hnameb], by rw [hsa, hsb]⟩

/-- An instance of C10, on `f` (span 7, one direct bare return): with the
threshold 5 the finding is logged, with 6 the same, with 7 none. -/
theorem threshold_all_or_nothing_witness :
    emitted (visA 5) (.FuncDecl declF) = [{ file := "a.go", line := 9, name := "f", span := 7 }]
    ∧ emitted (visA 6) (.FuncDecl declF) = emitted (visA 5) (.FuncDecl declF)
    ∧ emitted (visA 7) (.FuncDecl declF) = []
    ∧ (emitted (visA 5) (.FuncDecl declF)).length = (directBareReturns declF).length :=
  ⟨by decide,
   ((threshold_all_or_nothing { files := [fileA] } declF).1 5 6 (by decide)).resolve_left
     (by decide),
   ((threshold_all_or_nothing { files := [fileA] } declF).1 5 7 (by decide)).resolve_right
     (by decide),
   ((threshold_all_or_nothing { files := [fileA] } declF).2.1 5 (by decide)).resolve_left
     (by decide)⟩

/-- C6, as stated, fails: for the finding of `f` in `a.go` the line written
ends in a space after the word `function`, so it is neither the specified text
nor that text followed by a newline. -/
theorem logged_text_is_not_spec_text :
    (visA 5).Visit (.FuncDecl declF)
      = some ([{ file := "a.go", line := 9, name := "f", span := 7 }], visA 5)
    ∧ Diagnostic.text { file := "a.go", line := 9, name := "f", span := 7 }
        = "a.go:9 f naked returns on 7 line function \n"
    ∧ specText "a.go" 9 "f" 7 = "a.go:9 f naked returns on 7 line function"
    ∧ Diagnostic.text { file := "a.go", line := 9, name := "f", span := 7 }
        ≠ specText "a.go" 9 "f" 7
    ∧ Diagnostic.text { file := "a.go", line := 9, name := "f", span := 7 }
        ≠ specText "a.go" 9 "f" 7 ++ "\n" := by
  decide

/-- C6, amended: the text written for a finding with file name `F`, return
line `L`, function name `N` and span `S` is `"F:L N naked returns on S line
function"` followed by one space and the newline; `Visit` writes one such line
per finding. -/
theorem logged_text_eq (v : returnsVisitor) (node : ast.Node) :
    (∀ d : Diagnostic, d.text = specText d.file d.line d.name d.span ++ " \n")
    ∧ (emitted v node).map Diagnostic.text
        = (emitted v node).map (fun d => specText d.file d.line d.name d.span ++ " \n") := by
  have h : ∀ d : Diagnostic, d.text = specText d.file d.line d.name d.span ++ " \n" := by
    intro d
    unfold Diagnostic.text specText
    rw [String.append_assoc _ " line function" " \n"]
    rfl
  exact ⟨h, List.map_congr_left (fun d _ => h d)⟩

/-- C4, as stated, fails: on a host without the path `main.txt`, the call
with that argument and a nil `maxLength` returns the parse error, not
`"max length nil"`. -/
theorem nil_maxLength_after_parse_error :
    checkNakedReturns hostEmpty ["main.txt"] none
      = some (some "could not parse input invalid file main.txt specified", [])
    ∧ checkNakedReturns hostEmpty ["main.txt"] none ≠ some (some "max length nil", []) := by
  decide

/-- C4, amended: with a nil `maxLength`, `checkNakedReturns` returns an error
and logs nothing, no tree being walked: the error of `parseInput`, wrapped,
when the arguments do not parse, and `"max length nil"` when they do. -/
theorem checkNakedReturns_nil_maxLength (os : Host) (args : List String) :
    checkNakedReturns os args none =
      some (some (match parseInput os args token.NewFileSet with
                  | .error err => "could not parse input " ++ err
                  | .ok _ => "max length nil"), []) := by
  unfold checkNakedReturns
  simp only
  cases parseInput os args token.NewFileSet with
  | error err => rfl
  | ok r => rfl

/-- C2 at the declaration `p` of `gen.go`: its line span is `-2` (it starts on
line 5 and, after the `//line` directive, ends on line 3), the threshold is 3,
and the finding is logged although the span is not above the threshold, the
comparison being made on `uint(-2) = 2^64 - 2`. -/
theorem visit_reports_negative_span :
    functionLineLength (visGen 3) declP = some (-2)
    ∧ toUint (-2) = 18446744073709551614
    ∧ (visGen 3).Visit (.FuncDecl declP)
        = some ([{ file := "gen.go", line := 2, name := "p", span := -2 }], visGen 3)
    ∧ ¬ ((3 : Int) < -2) := by
  decide

/-- C3 at the declaration `p` of `gen.go`: the line span `-2` is less than or
equal to the threshold 5, and a diagnostic is logged all the same, also by a
whole run on `gen.go`; for `g` of `a.go`, of span 3, none is. -/
theorem visit_reports_span_below_threshold :
    functionLineLength (visGen 5) declP = some (-2)
    ∧ (-2 : Int) ≤ 5
    ∧ emitted (visGen 5) (.FuncDecl declP)
        = [{ file := "gen.go", line := 2, name := "p", span := -2 }]
    ∧ (Diagnostic.text { file := "gen.go", line := 2, name := "p", span := -2 }
        = "gen.go:2 p naked returns on -2 line function \n")
    ∧ checkNakedReturns hostGen ["gen.go"] (some 5)
        = some (none, [{ file := "gen.go", line := 2, name := "p", span := -2 }])
    ∧ functionLineLength (visA 5) declG = some 3
    ∧ emitted (visA 5) (.FuncDecl declG) = [] := by
  decide

/-! ## The calls of a run, one after the other -/

theorem visitAll_cons (v : returnsVisitor) (node : ast.Node) (rest : List ast.Node) :
    visitAll v (node :: rest) =
      match v.Visit node with
      | none => none
      | some (out, w) =>
        match visitAll w rest with
        | none => none
        | some (outs, u) => some (out ++ outs, u) := rfl

theorem visitAll_cons_other (v : returnsVisitor) (node : ast.Node) (rest : List ast.Node)
    (h : ∀ d, node ≠ .FuncDecl d) : visitAll v (node :: rest) = visitAll v rest := by
  rw [visitAll_cons, visit_other v node h]
  simp only
  cases visitAll v rest with
  | none => rfl
  | some r => simp

theorem visitAll_nil_cons (v : returnsVisitor) (rest : List ast.Node) :
    visitAll v (ast.Node.nil :: rest) = visitAll v rest :=
  visitAll_cons_other v _ rest (by intro d hd; cases hd)

theorem visitAll_callsIdent (v : returnsVisitor) (x : Option ast.Ident) (rest : List ast.Node) :
    visitAll v (callsIdent x ++ rest) = visitAll v rest := by
  show visitAll v (.Ident x :: .nil :: rest) = _
  rw [visitAll_cons_other v _ _ (by intro d hd; cases hd), visitAll_nil_cons]

theorem visitAll_callsIdentList (v : returnsVisitor) (xs : List (Option ast.Ident))
    (rest : List ast.Node) : visitAll v (callsIdentList xs ++ rest) = visitAll v rest := by
  induction xs with
  | nil => rfl
  | cons x xs ih =>
    show visitAll v ((callsIdent x ++ callsIdentList xs) ++ rest) = _
    rw [List.append_assoc, visitAll_callsIdent, ih]

theorem visitAll_callsField (v : returnsVisitor) (f : ast.Field) (rest : List ast.Node) :
    visitAll v (callsField f ++ rest) = visitAll v rest := by
  show visitAll v (.Field f :: ((callsIdentList f.Names
    ++ (callsIdent (some f.Type_) ++ [.nil])) ++ rest)) = _
  rw [visitAll_cons_other v _ _ (by intro d hd; cases hd), List.append_assoc,
    visitAll_callsIdentList, List.append_assoc, visitAll_callsIdent]
  exact visitAll_nil_cons v rest

theorem visitAll_callsFields (v : returnsVisitor) (fs : List ast.Field) (rest : List ast.Node) :
    visitAll v (fs.flatMap callsField ++ rest) = visitAll v rest := by
  induction fs with
  | nil => rfl
  | cons f fs ih =>
    rw [List.flatMap_cons, List.append_assoc, visitAll_callsField, ih]

theorem visitAll_callsFieldList (v : returnsVisitor) (l : Option ast.FieldList)
    (rest : List ast.Node) : visitAll v (callsFieldList l ++ rest) = visitAll v rest := by
  cases l with
  | none => rfl
  | some l =>
    show visitAll v (.FieldList l :: ((l.List.flatMap callsField ++ [.nil]) ++ rest)) = _
    rw [visitAll_cons_other v _ _ (by intro d hd; cases hd), List.append_assoc,
      visitAll_callsFields]
    exact visitAll_nil_cons v rest

theorem visitAll_callsFuncType (v : returnsVisitor) (t : ast.FuncType) (rest : List ast.Node) :
    visitAll v (callsFuncType t ++ rest) = visitAll v rest := by
  show visitAll v (.FuncType t :: ((callsFieldList t.Params
    ++ (callsFieldList t.Results ++ [.nil])) ++ rest)) = _
  rw [visitAll_cons_other v _ _ (by intro d hd; cases hd), List.append_assoc,
    visitAll_callsFieldList, List.append_assoc, visitAll_callsFieldList]
  exact visitAll_nil_cons v rest

mutual
theorem visitAll_callsExpr (v : returnsVisitor) :
    ∀ (e : ast.Expr) (rest : List ast.Node), visitAll v (callsExpr e ++ rest) = visitAll v rest
  | .Ident x, rest => by
    show visitAll v (.Expr (.Ident x) :: .nil :: rest) = _
    rw [visitAll_cons_other v _ _ (by intro d hd; cases hd), visitAll_nil_cons]
  | .BasicLit p s, rest => by
    show visitAll v (.Expr (.BasicLit p s) :: .nil :: rest) = _
    rw [visitAll_cons_other v _ _ (by intro d hd; cases hd), visitAll_nil_cons]
  | .FuncLit t body, rest => by
    unfold callsExpr
    rw [List.cons_append, visitAll_cons_other v _ _ (by intro d hd; cases hd),
      List.append_assoc, visitAll_callsFuncType, List.cons_append,
      visitAll_cons_other v _ _ (by intro d hd; cases hd), List.append_assoc,
      visitAll_callsStmtList v body]
    show visitAll v (.nil :: .nil :: rest) = _
    rw [visitAll_nil_cons, visitAll_nil_cons]
  | .CallExpr f args, rest => by
    unfold callsExpr
    rw [List.cons_append, visitAll_cons_other v _ _ (by intro d hd; cases hd),
      List.append_assoc, visitAll_callsExpr v f, List.append_assoc,
      visitAll_callsExprList v args]
    exact visitAll_nil_cons v rest
theorem visitAll_callsExprList (v : returnsVisitor) :
    ∀ (es : List ast.Expr) (rest : List ast.Node),
      visitAll v (callsExprList es ++ rest) = visitAll v rest
  | [], rest => by unfold callsExprList; rfl
  | e :: es, rest => by
    unfold callsExprList
    rw [List.append_assoc, visitAll_callsExpr v e, visitAll_callsExprList v es]
theorem visitAll_callsExprOpt (v : returnsVisitor) :
    ∀ (e : Option ast.Expr) (rest : List ast.Node),
      visitAll v (callsExprOpt e ++ rest) = visitAll v rest
  | none, rest => by unfold callsExprOpt; rfl
  | some e, rest => by unfold callsExprOpt; exact visitAll_callsExpr v e rest
theorem visitAll_callsStmt (v : returnsVisitor) :
    ∀ (s : ast.Stmt) (rest : List ast.Node), visitAll v (callsStmt s ++ rest) = visitAll v rest
  | .ExprStmt x, rest => by
    unfold callsStmt
    rw [List.cons_append, visitAll_cons_other v _ _ (by intro d hd; cases hd),
      List.append_assoc, visitAll_callsExpr v x]
    exact visitAll_nil_cons v rest
  | .AssignStmt lhs rhs, rest => by
    unfold callsStmt
    rw [List.cons_append, visitAll_cons_other v _ _ (by intro d hd; cases hd),
      List.append_assoc, visitAll_callsExprList v lhs, List.append_assoc,
      visitAll_callsExprList v rhs]
    exact visitAll_nil_cons v rest
  | .ReturnStmt p results, rest => by
    unfold callsStmt
    rw [List.cons_append, visitAll_cons_other v _ _ (by intro d hd; cases hd),
      List.append_assoc, visitAll_callsExprList v results]
    exact visitAll_nil_cons v rest
  | .BlockStmt list, rest => by
    unfold callsStmt
    rw [List.cons_append, visitAll_cons_other v _ _ (by intro d hd; cases hd),
      List.append_assoc, visitAll_callsStmtList v list]
    exact visitAll_nil_cons v rest
  | .IfStmt cond body els, rest => by
    unfold callsStmt
    rw [List.cons_append, visitAll_cons_other v _ _ (by intro d hd; cases hd),
      List.append_assoc, visitAll_callsExpr v cond, List.cons_append,
      visitAll_cons_other v _ _ (by intro d hd; cases hd), List.append_assoc,
      visitAll_callsStmtList v body, List.cons_append, visitAll_nil_cons,
      List.append_assoc, visitAll_callsStmtOpt v els]
    exact visitAll_nil_cons v rest
  | .ForStmt cond body, rest => by
    unfold callsStmt
    rw [List.cons_append, visitAll_cons_other v _ _ (by intro d hd; cases hd),
      List.append_assoc, visitAll_callsExprOpt v cond, List.cons_append,
      visitAll_cons_other v _ _ (by intro d hd; cases hd), List.append_assoc,
      visitAll_callsStmtList v body]
    show visitAll v (.nil :: .nil :: rest) = _
    rw [visitAll_nil_cons, visitAll_nil_cons]
theorem visitAll_callsStmtList (v : returnsVisitor) :
    ∀ (ss : List ast.Stmt) (rest : List ast.Node),
      visitAll v (callsStmtList ss ++ rest) = visitAll v rest
  | [], rest => by unfold callsStmtList; rfl
  | s :: ss, rest => by
    unfold callsStmtList
    rw [List.append_assoc, visitAll_callsStmt v s, visitAll_callsStmtList v ss]
theorem visitAll_callsStmtOpt (v : returnsVisitor) :
    ∀ (s : Option ast.Stmt) (rest : List ast.Node),
      visitAll v (callsStmtOpt s ++ rest) = visitAll v rest
  | none, rest => by unfold callsStmtOpt; rfl
  | some s, rest => by unfold callsStmtOpt; exact visitAll_callsStmt v s rest
end

theorem visitAll_callsValueSpec (v : returnsVisitor) (s : ast.ValueSpec) (rest : List ast.Node) :
    visitAll v (callsValueSpec s ++ rest) = visitAll v rest := by
  unfold callsValueSpec
  rw [List.cons_append, visitAll_cons_other v _ _ (by intro d hd; cases hd),
    List.append_assoc, visitAll_callsIdentList, List.append_assoc]
  have ht : ∀ tail : List ast.Node,
      visitAll v ((match s.Type_ with
        | some t => callsIdent (some t)
        | none => []) ++ tail) = visitAll v tail := by
    intro tail
    cases s.Type_ with
    | none => rfl
    | some t => exact visitAll_callsIdent v _ tail
  rw [ht, List.append_assoc, visitAll_callsExprList]
  exact visitAll_nil_cons v rest

theorem visitAll_callsSpecs (v : returnsVisitor) (ss : List ast.ValueSpec) (rest : List ast.Node) :
    visitAll v (ss.flatMap callsValueSpec ++ rest) = visitAll v rest := by
  induction ss with
  | nil => rfl
  | cons s ss ih => rw [List.flatMap_cons, List.append_assoc, visitAll_callsValueSpec, ih]

theorem andThen_eq_some {a b : Option (List Diagnostic)} {out : List Diagnostic}
    (h : andThen a b = some out) : ∃ x y, a = some x ∧ b = some y ∧ out = x ++ y := by
  cases a with
  | none => cases h
  | some x =>
    cases b with
    | none => cases h
    | some y =>
      simp only [andThen, Option.some.injEq] at h
      exact ⟨x, y, rfl, rfl, h.symm⟩

/-- The log of some calls, put before the result of the calls that follow. -/
theorem map_nil_append (o : Option (List Diagnostic × returnsVisitor)) :
    o.map (fun r => (([] : List Diagnostic) ++ r.1, r.2)) = o := by
  cases o with
  | none => rfl
  | some r => rfl

theorem map_append_append (x y : List Diagnostic) (o : Option (List Diagnostic × returnsVisitor)) :
    (o.map (fun r => (y ++ r.1, r.2))).map (fun r => (x ++ r.1, r.2))
      = o.map (fun r => ((x ++ y) ++ r.1, r.2)) := by
  cases o with
  | none => rfl
  | some r => simp [List.append_assoc]

theorem walkDecl_funcDecl_of_no_type (v : returnsVisitor) (d : ast.FuncDecl)
    (ht : d.Type_ = none) : walkDecl v (.FuncDecl d) = none := by
  show walkNode v (.FuncDecl d) _ = _
  rcases visit_same_visitor v (.FuncDecl d) with h | ⟨out, h⟩
  · exact walkNode_of_panic h
  · rw [walkNode_of_visit h]
    simp only [ht, walkFieldList_eq, walkIdent_eq]
    rfl

theorem visitAll_callsDecl (v : returnsVisitor) (d : ast.Decl) (out : List Diagnostic)
    (h : walkDecl v d = some out) (rest : List ast.Node) :
    visitAll v (callsDecl d ++ rest) = (visitAll v rest).map (fun r => (out ++ r.1, r.2)) := by
  cases d with
  | GenDecl g =>
    have hw : walkDecl v (.GenDecl g) = some [] := by
      simp only [walkDecl]
      rw [walkNode_other _ _ _ (by intro d hd; cases hd), walkSpecs_eq]
    rw [hw] at h
    cases h
    rw [map_nil_append]
    show visitAll v (.GenDecl g :: ((g.Specs.flatMap callsValueSpec ++ [.nil]) ++ rest)) = _
    rw [visitAll_cons_other v _ _ (by intro d hd; cases hd), List.append_assoc,
      visitAll_callsSpecs]
    exact visitAll_nil_cons v rest
  | FuncDecl fd =>
    cases ht : fd.Type_ with
    | none => rw [walkDecl_funcDecl_of_no_type v fd ht] at h; cases h
    | some t =>
      rw [walkDecl_funcDecl v fd t ht] at h
      have hv : v.Visit (.FuncDecl fd) = some (out, v) := by
        rcases visit_same_visitor v (.FuncDecl fd) with h0 | ⟨o, h0⟩
        · rw [h0] at h; cases h
        · rw [h0] at h
          simp only [Option.map_some', Option.some.injEq] at h
          rw [h0, h]
      unfold callsDecl
      rw [List.cons_append, visitAll_cons, hv]
      simp only [ht]
      have hrest : visitAll v ((callsFieldList fd.Recv ++ (callsIdent fd.Name ++
          (callsFuncType t ++ ((match fd.Body with
            | some b => .Stmt (.BlockStmt b.List) :: (callsStmtList b.List ++ [.nil])
            | none => []) ++ [.nil])))) ++ rest) = visitAll v rest := by
        rw [List.append_assoc, visitAll_callsFieldList, List.append_assoc, visitAll_callsIdent,
          List.append_assoc, visitAll_callsFuncType, List.append_assoc]
        cases fd.Body with
        | none => exact visitAll_nil_cons v rest
        | some b =>
          simp only
          rw [List.cons_append, visitAll_cons_other v _ _ (by intro d hd; cases hd),
            List.append_assoc, visitAll_callsStmtList]
          show visitAll v (.nil :: .nil :: rest) = _
          rw [visitAll_nil_cons, visitAll_nil_cons]
      rw [hrest]
      cases visitAll v rest with
      | none => rfl
      | some r => rfl

theorem visitAll_callsDeclList (v : returnsVisitor) (ds : List ast.Decl) :
    ∀ (out : List Diagnostic), walkDeclList v ds = some out → ∀ rest : List ast.Node,
      visitAll v (ds.flatMap callsDecl ++ rest)
        = (visitAll v rest).map (fun r => (out ++ r.1, r.2)) := by
  induction ds with
  | nil =>
    intro out h rest
    cases h
    rw [map_nil_append]
    rfl
  | cons d ds ih =>
    intro out h rest
    obtain ⟨x, y, hx, hy, rfl⟩ := andThen_eq_some h
    rw [List.flatMap_cons, List.append_assoc, visitAll_callsDecl v d x hx, ih y hy rest,
      map_append_append]

theorem visitAll_callsFile (v : returnsVisitor) (f : ast.File) (out : List Diagnostic)
    (h : ast.Walk v f = some out) (rest : List ast.Node) :
    visitAll v (callsFile f ++ rest) = (visitAll v rest).map (fun r => (out ++ r.1, r.2)) := by
  unfold ast.Walk at h
  rw [walkNode_other _ _ _ (by intro d hd; cases hd), walkIdent_eq, andThen_nil_left] at h
  unfold callsFile
  rw [List.cons_append, visitAll_cons_other v _ _ (by intro d hd; cases hd),
    List.append_assoc, visitAll_callsIdent, List.append_assoc,
    visitAll_callsDeclList v f.Decls out h]
  show (visitAll v (.nil :: rest)).map _ = _
  rw [visitAll_nil_cons]

theorem visitAll_callsFiles (v : returnsVisitor) (files : List ast.File) :
    ∀ (out : List Diagnostic), walkFiles v files = some out → ∀ rest : List ast.Node,
      visitAll v (callsFiles files ++ rest)
        = (visitAll v rest).map (fun r => (out ++ r.1, r.2)) := by
  induction files with
  | nil =>
    intro out h rest
    cases h
    rw [map_nil_append]
    rfl
  | cons f files ih =>
    intro out h rest
    obtain ⟨x, y, hx, hy, rfl⟩ := andThen_eq_some h
    show visitAll v ((callsFile f ++ callsFiles files) ++ rest) = _
    rw [List.append_assoc, visitAll_callsFile v f x hx, ih y hy rest, map_append_append]

theorem visitAll_same_visitor (nodes : List ast.Node) :
    ∀ (v w : returnsVisitor) (out : List Diagnostic), visitAll v nodes = some (out, w) → w = v := by
  induction nodes with
  | nil =>
    intro v w out h
    simp only [visitAll, Option.some.injEq, Prod.mk.injEq] at h
    exact h.2.symm
  | cons node rest ih =>
    intro v w out h
    rw [visitAll_cons] at h
    rcases visit_same_visitor v node with h0 | ⟨o, h0⟩
    · rw [h0] at h; cases h
    · rw [h0] at h
      simp only at h
      cases hr : visitAll v rest with
      | none => rw [hr] at h; cases h
      | some r =>
        obtain ⟨outs, u⟩ := r
        rw [hr] at h
        simp only [Option.some.injEq, Prod.mk.injEq] at h
        rw [← h.2]
        exact ih v u outs hr

/-- C7: detection is repeatable.  A call of `Visit` returns the visitor it
was called on, with the same file set and `maxLength`.  Hence a run of calls
on the shared visitor leaves that visitor as it found it, and the same calls
made again after it log the same sequence.  The calls of the loop of lines
65-67 over some files are such a run: they log what the walks log, and made
twice in a row they log that sequence twice. -/
theorem detection_is_repeatable (v : returnsVisitor) :
    (∀ node, v.Visit node = none ∨ ∃ out, v.Visit node = some (out, v))
    ∧ (∀ calls out w, visitAll v calls = some (out, w) →
        w = v ∧ visitAll w calls = some (out, w))
    ∧ (∀ files out, walkFiles v files = some out →
        visitAll v (callsFiles files) = some (out, v)
        ∧ visitAll v (callsFiles files ++ callsFiles files) = some (out ++ out, v)) := by
  refine ⟨visit_same_visitor v, ?_, ?_⟩
  · intro calls out w h
    have hw := visitAll_same_visitor calls v w out h
    subst hw
    exact ⟨rfl, h⟩
  · intro files out h
    have h1 : visitAll v (callsFiles files) = some (out, v) := by
      have := visitAll_callsFiles v files out h []
      rw [List.append_nil] at this
      rw [this]
      simp [visitAll]
    refine ⟨h1, ?_⟩
    rw [visitAll_callsFiles v files out h (callsFiles files), h1]
    rfl

/-- An instance of C7: the calls of two runs over the tree of `a.go`, in
which only `f` has a finding. -/
theorem detection_is_repeatable_witness :
    walkFiles (visA 5) [treeA] = some [{ file := "a.go", line := 9, name := "f", span := 7 }]
    ∧ visitAll (visA 5) (callsFiles [treeA] ++ callsFiles [treeA])
        = some ([{ file := "a.go", line := 9, name := "f", span := 7 }]
            ++ [{ file := "a.go", line := 9, name := "f", span := 7 }], visA 5) :=
  ⟨by decide, ((detection_is_repeatable (visA 5)).2.2 [treeA] _ (by decide)).2⟩

end Nakedret
